import Mathlib

/-!
Verification of the multi-file code-generation pipeline of
`src/tools/codeGenTools.py` (functions `parse_code_response`,
`_strip_markdown`, `_detect_default_filename`, `_extract_requested_filenames`,
`_validate_generated_files`, `_run_ruff_check`, `saveCode`, `generateCode`).

Strings are modelled as `List Char`.  Python regular-expression operations are
translated into explicit character scans whose behaviour matches the CPython
`re` engine on the concrete patterns appearing in the source (the relevant
backtracking behaviour of each pattern is worked out in the comment next to
each scanner).  External effects (the generating model, the `ruff` subprocess,
file writes) are modelled as explicit environment functions, and the observable
actions of `generateCode` are recorded in an event trace.
-/

namespace CodeGen

/-- Python `\s` / `str.strip()` whitespace for ASCII text:
space, tab, newline, carriage return, vertical tab, form feed. -/
def isWS (c : Char) : Bool :=
  c = ' ' || c = '\t' || c = '\n' || c = '\r' || c = '\x0b' || c = '\x0c'

/-- Python `\w` for ASCII text: letters, digits and underscore. -/
def isWordChar (c : Char) : Bool :=
  c.isAlphanum || c = '_'

/-- Character class `[\w\-\./]` of the header-marker pattern in
`parse_code_response`: word characters, `-`, `.` and `/`. -/
def isFnChar (c : Char) : Bool :=
  isWordChar c || c = '-' || c = '.' || c = '/'

/-- Character class `[\w+-]` used for the fence language tag in
`_strip_markdown` and `_detect_default_filename`. -/
def isTagChar (c : Char) : Bool :=
  isWordChar c || c = '+' || c = '-'

/-- Python `str.strip()`: remove leading and trailing whitespace. -/
def pyStrip (l : List Char) : List Char :=
  ((l.dropWhile isWS).reverse.dropWhile isWS).reverse

/-- Python substring containment `sub in l`. -/
def containsSub (l sub : List Char) : Bool :=
  match l with
  | [] => sub.isEmpty
  | _ :: t => sub.isPrefixOf l || containsSub t sub

/-!
### Header-marker scan of `parse_code_response`

The source compiles `re.compile(r"^\s*###\s+([\w\-\./]+)", re.MULTILINE)` and
iterates its matches.  Because `\s*` and `\s+` may span newlines while the
classes `#` and `[\w\-\./]` contain no whitespace, the pattern matches at a
line start exactly by maximal munch: skip maximal whitespace, require `###`,
skip maximal whitespace (at least one character), then take the maximal
non-empty run of filename characters; no backtracking case can differ.
`tryHeader` implements one such attempt; it returns the captured filename and
the text following the match (i.e. from `match.end()`).
-/

/-- One attempt to match `\s*###\s+([\w\-\./]+)` at a line start. -/
def tryHeader (s : List Char) : Option (List Char × List Char) :=
  match s.dropWhile isWS with
  | '#' :: '#' :: '#' :: s2 =>
    let s3 := s2.dropWhile isWS
    if s3.length = s2.length then none   -- `\s+` requires at least one whitespace
    else
      let fname := s3.takeWhile isFnChar
      if fname.isEmpty then none
      else some (fname, s3.drop fname.length)
  | _ => none

/--
Scan the text for further header markers, accumulating the current section.

`f` is the filename of the currently open section, `acc` the reversed body
collected so far, and `skip` counts characters still to be consumed because a
header match was already recognised ahead (the match is a prefix of the
remaining text; consuming it character by character keeps the recursion
structural).  A line start is any position immediately after a `'\n'`; failing
attempts at line starts inside a whitespace run coincide with the regex
engine's leftmost-match search, and a successful `tryHeader` at the first such
line start is exactly the leftmost match, so section bodies end at
`match.start()` just as in the source (`raw_response[start_pos:end_pos]`).
-/
def scanChars (f acc : List Char) (skip : Nat) : List Char → List (List Char × List Char)
  | [] => [(f, acc.reverse)]
  | c :: rest =>
    match skip with
    | n + 1 => scanChars f acc n rest
    | 0 =>
      if c = '\n' then
        match tryHeader rest with
        | some (f2, r2) =>
          (f, ('\n' :: acc).reverse) :: scanChars f2 [] (rest.length - r2.length) rest
        | none => scanChars f ('\n' :: acc) 0 rest
      else scanChars f (c :: acc) 0 rest

/-- Find the first header marker at a line start strictly after the first
newline (used when the match attempt at position 0 fails). -/
def preScan : List Char → Option (List Char × List Char)
  | [] => none
  | c :: rest =>
    if c = '\n' then
      match tryHeader rest with
      | some fr => some fr
      | none => preScan rest
    else preScan rest

/-- All header-delimited sections of the raw text, in order:
`list(pattern.finditer(raw_response))` together with the body slices
`raw_response[match.end() : next_match.start()]` (the last body extends to the
end of the text).  Returns `[]` exactly when the pattern has no match. -/
def headerSections (s : List Char) : List (List Char × List Char) :=
  match tryHeader s with
  | some (f, r) => scanChars f [] 0 r
  | none =>
    match preScan s with
    | some (f, r) => scanChars f [] 0 r
    | none => []

/-!
### Fenced-block extraction of `_strip_markdown`

`re.findall(r"```(?:[\w+-]+)?\s*(.*?)```", text, flags=re.DOTALL)`.
At an occurrence of three backticks the engine takes the maximal language-tag
run `[\w+-]+` (optional), then maximal whitespace, then the lazy body running
to the first later occurrence of three backticks.  Neither tag nor whitespace
characters are backticks, so no backtracking case differs: the match succeeds
exactly when a closing triple backtick exists, and on failure the engine slides
one character forward, which reaches the next occurrence of three backticks.
-/

/-- Find the first occurrence of three backticks; return the text before it and
the text after it (the lazy body `(.*?)` and the closing fence). -/
def findClose : List Char → Option (List Char × List Char)
  | '\x60' :: '\x60' :: '\x60' :: rest => some ([], rest)
  | c :: rest => (findClose rest).map fun br => (c :: br.1, br.2)
  | [] => none

/-- Scanner for all fenced-block bodies.  `skip` consumes characters already
matched (keeping the recursion structural). -/
def findFencesAux (skip : Nat) : List Char → List (List Char)
  | [] => []
  | c :: rest =>
    match skip with
    | n + 1 => findFencesAux n rest
    | 0 =>
      match c, rest with
      | '\x60', '\x60' :: '\x60' :: rest2 =>
        let rest3 := (rest2.dropWhile isTagChar).dropWhile isWS
        match findClose rest3 with
        | some (body, after) => body :: findFencesAux (rest.length - after.length) rest
        | none => findFencesAux 0 rest
      | _, _ => findFencesAux 0 rest

/-- All bodies of well-formed fenced blocks, in order. -/
def findFences (s : List Char) : List (List Char) :=
  findFencesAux 0 s

/-!
### The fallback stray-fence stripping of `_strip_markdown`

`re.sub(r"^\s*```[\w+-]*\s*$", "", text, flags=re.MULTILINE)` removes, at each
line start, maximal whitespace, three backticks, a maximal tag run, then
greedy whitespace backing off to the last position where `$` holds (end of
string, or just before a `'\n'`).
-/

/-- The trailing `\s*$` of the fence-line pattern: consume the maximal
whitespace prefix that ends at the end of the string or just before a newline;
fail if no such position exists. -/
def wsToLineEnd (s : List Char) : Option (List Char) :=
  let w := s.takeWhile isWS
  let rest := s.drop w.length
  if rest.isEmpty then some []
  else
    -- back off inside `w` to just before its last newline, if any
    let tail := w.reverse.takeWhile (fun c => ¬ (c = '\n'))
    if tail.length = w.length then none
    else some (w.drop (w.length - tail.length - 1) ++ rest)

/-- One attempt to match `\s*```[\w+-]*\s*$` at a line start; returns the text
after the match. -/
def tryFenceLine (s : List Char) : Option (List Char) :=
  match s.dropWhile isWS with
  | '\x60' :: '\x60' :: '\x60' :: s2 => wsToLineEnd (s2.dropWhile isTagChar)
  | _ => none

/-- Scanner of the multiline fence-line substitution: delete every match,
scanning line starts left to right. -/
def subFenceAux (skip : Nat) (acc : List Char) : List Char → List Char
  | [] => acc.reverse
  | c :: rest =>
    match skip with
    | n + 1 => subFenceAux n acc rest
    | 0 =>
      if c = '\n' then
        match tryFenceLine rest with
        | some r => subFenceAux (rest.length - r.length) ('\n' :: acc) rest
        | none => subFenceAux 0 ('\n' :: acc) rest
      else subFenceAux 0 (c :: acc) rest

/-- `re.sub(r"^\s*```[\w+-]*\s*$", "", text, flags=re.MULTILINE)`. -/
def subFenceLines (s : List Char) : List Char :=
  match tryFenceLine s with
  | some r => subFenceAux (s.length - r.length) [] s
  | none => subFenceAux 0 [] s

/-- `re.sub(r"\s*```\s*$", "", text)` (no MULTILINE): greedy whitespace, three
backticks, then only whitespace to the end of the string; the match runs to the
end, so the replacement keeps the text before the leftmost such position. -/
def subTrailFence : List Char → List Char
  | [] => []
  | c :: rest =>
    match (c :: rest).dropWhile isWS with
    | '\x60' :: '\x60' :: '\x60' :: s2 =>
      if s2.all isWS then [] else c :: subTrailFence rest
    | _ => c :: subTrailFence rest

/-- `_strip_markdown`: remove Markdown code-block markers and surrounding
whitespace.  If any fenced block exists, join the non-blank stripped bodies
with a blank line; otherwise strip stray fence lines. -/
def _strip_markdown (text : List Char) : List Char :=
  let t := pyStrip text
  let code_blocks := findFences t
  if ¬ code_blocks.isEmpty then
    List.intercalate ("\n\n".toList)
      ((code_blocks.map pyStrip).filter fun b => ¬ b.isEmpty)
  else
    pyStrip (subTrailFence (subFenceLines t))

/-!
### `_detect_default_filename`
-/

/-- `re.search(r"```([\w+-]+)", raw_response)`: first occurrence of three
backticks followed by at least one tag character; the group is the maximal tag
run. -/
def detectLang : List Char → Option (List Char)
  | [] => none
  | '\x60' :: rest =>
    match rest with
    | '\x60' :: '\x60' :: c :: rest2 =>
      if isTagChar c then some (c :: rest2.takeWhile isTagChar)
      else detectLang rest
    | _ => detectLang rest
  | _ :: rest => detectLang rest

/-- The `extension_map` dictionary of `_detect_default_filename`. -/
def extension_map : List (List Char × List Char) :=
  [("python".toList, "py".toList), ("py".toList, "py".toList),
   ("typescript".toList, "ts".toList), ("ts".toList, "ts".toList),
   ("tsx".toList, "tsx".toList),
   ("javascript".toList, "js".toList), ("js".toList, "js".toList),
   ("jsx".toList, "jsx".toList),
   ("go".toList, "go".toList), ("golang".toList, "go".toList),
   ("java".toList, "java".toList), ("c".toList, "c".toList),
   ("cpp".toList, "cpp".toList), ("cxx".toList, "cpp".toList),
   ("cs".toList, "cs".toList), ("csharp".toList, "cs".toList),
   ("html".toList, "html".toList), ("css".toList, "css".toList),
   ("sql".toList, "sql".toList),
   ("bash".toList, "sh".toList), ("shell".toList, "sh".toList),
   ("sh".toList, "sh".toList),
   ("json".toList, "json".toList), ("yaml".toList, "yaml".toList),
   ("yml".toList, "yml".toList),
   ("markdown".toList, "md".toList), ("md".toList, "md".toList)]

/-- `_detect_default_filename`: guess a default filename from the language tag
of the first fence (`main.txt` when no tagged fence exists or the tag is
unknown). -/
def _detect_default_filename (raw : List Char) : List Char :=
  match detectLang raw with
  | none => "main.txt".toList
  | some lang =>
    let language := lang.map Char.toLower
    let extension := ((extension_map.lookup language).getD ("txt".toList))
    "main.".toList ++ extension

/-!
### `parse_code_response`
-/

/-- Insertion into a Python dict modelled as an association list: a fresh key
is appended, an existing key keeps its position and gets the new value
(last-write-wins). -/
def dictInsert (l : List (List Char × List Char)) (k v : List Char) :
    List (List Char × List Char) :=
  if l.any (fun p => p.1 = k) then
    l.map fun p => if p.1 = k then (k, v) else p
  else l ++ [(k, v)]

/-- The loop body of `parse_code_response`: clean one section's body with
`_strip_markdown` and record it under its (trimmed) filename unless the
cleaned body is empty. -/
def parseStep (files : List (List Char × List Char)) (fb : List Char × List Char) :
    List (List Char × List Char) :=
  let clean_code := _strip_markdown fb.2
  if ¬ clean_code.isEmpty then dictInsert files (pyStrip fb.1) clean_code
  else files

/-- `parse_code_response`: split the raw model reply into filename/content
pairs.  With no header marker the whole reply becomes a single file under a
guessed default name; otherwise each section's body is cleaned with
`_strip_markdown` and empty bodies are discarded. -/
def parse_code_response (raw_response : List Char) : List (List Char × List Char) :=
  let ms := headerSections raw_response
  if ms.isEmpty then
    [(_detect_default_filename raw_response, _strip_markdown raw_response)]
  else
    ms.foldl parseStep []

/-!
### `_extract_requested_filenames`

`re.findall(r"\b[\w\-\/]+\.(?:py|js|ts|tsx|jsx|html|css|go|java|json|yaml|yml|md)\b",
code_request, flags=re.IGNORECASE)` — leftmost non-overlapping matches, in
order, duplicates kept.  `\b` is a word boundary; the token run `[\w\-\/]+` is
maximal (its class excludes `.`), the extension alternation is tried in source
order, and the final `\b` requires a non-word character (or the end) after the
extension.
-/

/-- Character class `[\w\-\/]` of the requested-filename pattern. -/
def isTokChar (c : Char) : Bool :=
  isWordChar c || c = '-' || c = '/'

/-- The extension alternation of the requested-filename pattern, in source
order. -/
def requestExts : List (List Char) :=
  ["py".toList, "js".toList, "ts".toList, "tsx".toList, "jsx".toList,
   "html".toList, "css".toList, "go".toList, "java".toList, "json".toList,
   "yaml".toList, "yml".toList, "md".toList]

/-- Case-insensitive prefix test (ASCII, as `re.IGNORECASE` on these
letters-only extensions). -/
def ciPrefix : List Char → List Char → Bool
  | [], _ => true
  | _ :: _, [] => false
  | p :: ps, c :: cs => (p.toLower = c.toLower) && ciPrefix ps cs

/-- Try the extension alternation at `s`: first alternative (in order) that is
a case-insensitive prefix of `s` and is followed by a non-word character or the
end (`\b` after letters).  Returns the matched characters of `s` and the rest. -/
def tryExt (s : List Char) : Option (List Char × List Char) :=
  requestExts.foldl
    (fun found ext =>
      match found with
      | some r => some r
      | none =>
        if ciPrefix ext s then
          let rest := s.drop ext.length
          match rest with
          | [] => some (s.take ext.length, [])
          | c :: _ => if ¬ isWordChar c then some (s.take ext.length, rest) else none
        else none)
    none

/-- One attempt to match the requested-filename pattern at the current
position; `prevWord` records whether the preceding character is a word
character (for the leading `\b`). -/
def tryFile (prevWord : Bool) (s : List Char) : Option (List Char × List Char) :=
  let run := s.takeWhile isTokChar
  if run.isEmpty then none
  else
    -- leading `\b`: exactly one side of the position is a word character
    let boundary : Bool :=
      match s with
      | [] => false
      | c :: _ => if isWordChar c then !prevWord else prevWord
    if !boundary then none
    else
      match s.drop run.length with
      | '.' :: after =>
        match tryExt after with
        | some (ext, rest) => some (run ++ '.' :: ext, rest)
        | none => none
      | _ => none

/-- Scanner for all requested-filename matches. `skip` consumes characters of
an already recognised match; `prevWord` tracks the previous character. -/
def findFilesAux (skip : Nat) (prevWord : Bool) : List Char → List (List Char)
  | [] => []
  | c :: rest =>
    match skip with
    | n + 1 => findFilesAux n (isWordChar c) rest
    | 0 =>
      match tryFile prevWord (c :: rest) with
      | some (m, r) =>
        m :: findFilesAux (rest.length - r.length) (isWordChar c) rest
      | none => findFilesAux 0 (isWordChar c) rest

/-- `_extract_requested_filenames`: detect explicit filenames requested by the
user (a list, with duplicates kept, in order of appearance). -/
def _extract_requested_filenames (code_request : List Char) : List (List Char) :=
  if code_request.isEmpty then []
  else findFilesAux 0 false code_request

/-- The minimum file count computed in `generateCode`:
`expected_min_files = max(1, len(expected_files))`. -/
def expectedMinFiles (code_request : List Char) : Nat :=
  max 1 (_extract_requested_filenames code_request).length

/-!
### `_validate_generated_files`
-/

/-- Decimal rendering of a number, as a Python f-string does. -/
def natStr (n : Nat) : List Char := (Nat.repr n).toList

/-- `_validate_generated_files`: validate output formatting and required file
count.  Note that the missing-files rule is nested inside the minimum-count
rule in the source. -/
def _validate_generated_files (files : List (List Char × List Char))
    (expected_files : List (List Char)) (expected_min_files : Nat) :
    Bool × List Char :=
  let countErrors :=
    if files.length < expected_min_files then
      ("Expected at least ".toList ++ natStr expected_min_files ++
        " files, but got ".toList ++ natStr files.length ++ ".".toList) ::
      (if ¬ expected_files.isEmpty then
        let missing := expected_files.filter fun name =>
          ¬ files.any fun p => p.1 = name
        if ¬ missing.isEmpty then
          [("Missing files: ".toList ++ List.intercalate (", ".toList) missing)]
        else []
      else [])
    else []
  let dangling_fences :=
    (files.filter fun p => containsSub p.2 ("\x60\x60\x60".toList)).map fun p => p.1
  let fenceErrors :=
    if ¬ dangling_fences.isEmpty then
      [("Found leftover markdown fences in files: ".toList ++
        List.intercalate (", ".toList) dangling_fences)]
    else []
  let errors := countErrors ++ fenceErrors
  (errors.isEmpty, List.intercalate ("\n".toList) errors)

/-!
### The `generateCode` pipeline

External effects are modelled by an environment: the generating model
(`respond`, assumed to return text — transport failures of the model are out
of scope of every claim below), the `ruff` subprocess together with the
temporary lint workspace (`ruff`, whose `Except.error` outcome models a raised
exception such as `FileNotFoundError` when the checker binary is absent — the
source wraps none of this in `try`), the
`os.makedirs(settings.workspaceDir, exist_ok=True)` call that `saveCode`
performs OUTSIDE its `try` block (`makedirs`, whose `Except.error` outcome
models a raised `OSError` — a read-only filesystem, or `workspaceDir` existing
as a regular file, raises even with `exist_ok=True`, and nothing catches it),
and the file write performed inside `saveCode`'s `try` block (`write`).  The
observable actions of a run are recorded in an event trace.
-/

/-- Python exceptions that can cross `generateCode`'s boundary. -/
inductive PyExn
  | valueError (msg : List Char)
  | fileNotFoundError (msg : List Char)
  | osError (msg : List Char)
  deriving DecidableEq, Repr

/-- Message roles of the conversation. -/
inductive Role
  | system | user | assistant
  deriving DecidableEq, Repr

/-- A role-tagged conversation message. -/
structure Msg where
  role : Role
  content : List Char
  deriving DecidableEq, Repr

/-- Observable events of one `generateCode` run. -/
inductive Event
  | modelInvoked
  | structChecked (ok : Bool)
  | ruffChecked (ok : Bool)
  | ruffRaised
  | fileSaved (name : List Char) (result : Option (List Char))
  | saveRaised (name : List Char)
  deriving DecidableEq, Repr

/-- The environment of external collaborators. -/
structure GenEnv where
  /-- `model.invoke(messages).content or ""` -/
  respond : List Msg → List Char
  /-- Standing up the temporary workspace and running
  `subprocess.run(["ruff", "check", temp_dir], ...)` on the written Python
  files; `.error` is an exception raised by either step, `.ok` is
  `(returncode, stdout, stderr)`. -/
  ruff : List (List Char × List Char) → Except PyExn (Int × List Char × List Char)
  /-- The `open(...).write(...)` inside `saveCode`'s `try` block. -/
  write : List Char → List Char → Except PyExn Unit
  /-- The `os.makedirs(settings.workspaceDir, exist_ok=True)` performed by
  `saveCode` OUTSIDE its `try` block; `.error` is a raised `OSError`.  It
  always targets the same fixed directory, so its outcome is one value. -/
  makedirs : Except PyExn Unit
  /-- `settings.workspaceDir` (configuration outside `src/`). -/
  workspaceDir : List Char

/-- `_run_ruff_check`: run Ruff on the extracted `.py` files.  No file
qualifying for linting reports success trivially; otherwise the subprocess
outcome is converted to `(ok, errors)` — but an exception from the workspace
or the subprocess is not caught and propagates. -/
def _run_ruff_check (env : GenEnv) (files : List (List Char × List Char)) :
    Except PyExn (Bool × List Char) :=
  let python_files := files.filter fun p => (".py".toList).isSuffixOf p.1
  if python_files.isEmpty then .ok (true, [])
  else
    match env.ruff python_files with
    | .error e => .error e
    | .ok (returncode, stdout, stderr) =>
      if returncode = 0 then .ok (true, [])
      else
        let errors0 := pyStrip stdout
        let errors :=
          if ¬ stderr.isEmpty then pyStrip (errors0 ++ '\n' :: pyStrip stderr)
          else errors0
        .ok (false,
          if ¬ errors.isEmpty then errors
          else ("Ruff reported issues but did not return details.".toList))

/-- `os.path.join(settings.workspaceDir, filename)` for a relative filename.
(For a filename starting with `/` — admitted by the header character class —
`os.path.join` would discard the directory instead of prepending it; that
difference only changes the path text inside the returned messages, which no
theorem below quantifies over.) -/
def joinPath (dir filename : List Char) : List Char :=
  dir ++ '/' :: filename

/-- `saveCode`: create the workspace directory (outside the `try` — a
`makedirs` failure is NOT caught and the exception escapes), then write one
file under it; an exception from the write alone is caught and turned into
`None`. -/
def saveCode (env : GenEnv) (filename code : List Char) :
    Except PyExn (Option (List Char)) :=
  match env.makedirs with
  | .error e => .error e
  | .ok _ =>
    match env.write filename code with
    | .ok _ => .ok (some (joinPath env.workspaceDir filename))
    | .error _ => .ok none

/-- The structural-failure feedback message of `generateCode`. -/
def structFeedback (validation_errors : List Char) : List Char :=
  ("The generated output did not meet the required file format. Please fix the issues and return corrected code in the exact same format (### filename + fenced code blocks).\n\n").toList
    ++ validation_errors

/-- The lint-failure feedback message of `generateCode`. -/
def ruffFeedback (ruff_errors : List Char) : List Char :=
  ("The generated code has Ruff lint issues. Please fix the following errors and return corrected code in the exact same format (### filename + fenced code blocks).\n\n").toList
    ++ ruff_errors

/-- The `{filename}: {code}` listing joined by newlines. -/
def fileListing (files : List (List Char × List Char)) : List Char :=
  List.intercalate ("\n".toList) (files.map fun p => p.1 ++ ": ".toList ++ p.2)

/-- The `{filename}: {path}` listing joined by newlines. -/
def pathListing (dir : List Char) (files : List (List Char × List Char)) : List Char :=
  List.intercalate ("\n".toList)
    (files.map fun p => p.1 ++ ": ".toList ++ joinPath dir p.1)

/-- The clean success message returned when validation and Ruff both pass. -/
def successMessage (dir : List Char) (files : List (List Char × List Char)) : List Char :=
  ("Successfully generated code and saved to workspace directory. The code is: ").toList
    ++ fileListing files
    ++ (". The path of the saved code is: ").toList ++ pathListing dir files
    ++ (". You can now run the code using the runCode tool.").toList

/-- The success-with-caveat message returned after exhausting all attempts. -/
def warningMessage (dir : List Char) (files : List (List Char × List Char)) : List Char :=
  ("Successfully generated code and saved to workspace directory but failed to pass validation or Ruff checks. The code is: ").toList
    ++ fileListing files
    ++ (". The path of the saved code is: ").toList ++ pathListing dir files
    ++ (". You can now run the code using the runCode tool.").toList

/-- The per-attempt file set: the parse result, or the single-file fallback
`{fallback_name: ai_code.strip()}` when the parse result is empty. -/
def attemptExtract (ai_code : List Char) : List (List Char × List Char) :=
  let extracted := parse_code_response ai_code
  if extracted.isEmpty then [(_detect_default_filename ai_code, pyStrip ai_code)]
  else extracted

instance decEqExcept : DecidableEq (Except PyExn (List Char))
  | .error a, .error b =>
    decidable_of_iff (a = b) ⟨fun h => by rw [h], fun h => by cases h; rfl⟩
  | .error _, .ok _ => isFalse fun h => by cases h
  | .ok _, .error _ => isFalse fun h => by cases h
  | .ok a, .ok b =>
    decidable_of_iff (a = b) ⟨fun h => by rw [h], fun h => by cases h; rfl⟩

/-- The result of a `generateCode` run: the event trace of its external
actions together with its outcome (returned message, or raised exception). -/
structure GenResult where
  trace : List Event
  outcome : Except PyExn (List Char)
  deriving DecidableEq, Repr

/-- The save loop `for filename, code in extracted.items(): saveCode(...)`:
the trace events of the calls actually performed, together with the exception
of the first raising call (which aborts the loop), if any. -/
def runSaves (env : GenEnv) : List (List Char × List Char) → List Event × Option PyExn
  | [] => ([], none)
  | p :: t =>
    match saveCode env p.1 p.2 with
    | .error e => ([.saveRaised p.1], some e)
    | .ok r =>
      let rest := runSaves env t
      (.fileSaved p.1 r :: rest.1, rest.2)

/-- The retry loop of `generateCode`.  `n + 1` is the number of attempts still
available (so `n = 0` means the current attempt is the last one, i.e.
`attempt = max_attempts`).  The `0` case is unreachable: `generateCode`
enters with `max_attempts ≥ 1` and every recursive call has a positive
argument. -/
def genLoop (env : GenEnv) (expected_files : List (List Char))
    (expected_min_files : Nat) : List Msg → Nat → GenResult
  | _, 0 => ⟨[], .ok []⟩
  | messages, n + 1 =>
    let ai_code := env.respond messages
    let extracted := attemptExtract ai_code
    let v := _validate_generated_files extracted expected_files expected_min_files
    if ¬ v.1 ∧ n ≠ 0 then
      -- structural failure on a non-final attempt: feedback and retry,
      -- skipping the Ruff check
      let res := genLoop env expected_files expected_min_files
        (messages ++ [⟨.assistant, ai_code⟩, ⟨.user, structFeedback v.2⟩]) n
      ⟨.modelInvoked :: .structChecked v.1 :: res.trace, res.outcome⟩
    else
      match _run_ruff_check env extracted with
      | .error e => ⟨[.modelInvoked, .structChecked v.1, .ruffRaised], .error e⟩
      | .ok (ruff_ok, ruff_errors) =>
        if ruff_ok ∧ v.1 then
          let sv := runSaves env extracted
          ⟨[.modelInvoked, .structChecked v.1, .ruffChecked ruff_ok] ++ sv.1,
            match sv.2 with
            | some e => .error e
            | none => .ok (successMessage env.workspaceDir extracted)⟩
        else if n ≠ 0 then
          let res := genLoop env expected_files expected_min_files
            (messages ++ [⟨.assistant, ai_code⟩, ⟨.user, ruffFeedback ruff_errors⟩]) n
          ⟨.modelInvoked :: .structChecked v.1 :: .ruffChecked ruff_ok :: res.trace,
            res.outcome⟩
        else
          let sv := runSaves env extracted
          ⟨[.modelInvoked, .structChecked v.1, .ruffChecked ruff_ok] ++ sv.1,
            match sv.2 with
            | some e => .error e
            | none => .ok (warningMessage env.workspaceDir extracted)⟩

/-- Stand-in for the `coding_prompt` literal; its text is never inspected by
the pipeline (it is only passed to the generating model, which every theorem
below quantifies over). -/
def coding_prompt : List Char :=
  ("You are an Elite Full-Stack Software Engineer and Polyglot Code Generator.").toList

/-- `generateCode`: validate the parameters, compute the expectations once,
then run the bounded generate-validate-repair loop. -/
def generateCode (env : GenEnv) (code_request : List Char) (max_attempts : Int) :
    GenResult :=
  if (pyStrip code_request).isEmpty then
    ⟨[], .error (.valueError ("code_request must be a non-empty string.".toList))⟩
  else if max_attempts < 1 then
    ⟨[], .error (.valueError ("max_attempts must be at least 1.".toList))⟩
  else
    genLoop env (_extract_requested_filenames code_request)
      (expectedMinFiles code_request)
      [⟨.system, coding_prompt⟩, ⟨.user, code_request⟩]
      max_attempts.toNat

/-!
## Shared lemmas
-/

lemma intercalate_cons2 (sep x y : List Char) (t : List (List Char)) :
    List.intercalate sep (x :: y :: t) = x ++ sep ++ List.intercalate sep (y :: t) := by
  simp [List.intercalate, List.intersperse, List.append_assoc]

lemma containsSub_iff (l s : List Char) : containsSub l s = true ↔ s <:+: l := by
  induction l with
  | nil =>
    simp only [containsSub, List.isEmpty_iff, List.infix_nil]
  | cons c t ih =>
    simp only [containsSub, Bool.or_eq_true, ih, List.isPrefixOf_iff_prefix,
      List.infix_cons_iff]

lemma dictInsert_ne_nil (l : List (List Char × List Char)) (k v : List Char) :
    dictInsert l k v ≠ [] := by
  unfold dictInsert
  split
  · rcases l with _ | ⟨p, t⟩
    · simp_all
    · simp
  · simp

lemma prefix_intercalate (sep m : List Char) (fe : List (List Char)) :
    m <+: List.intercalate sep (m :: fe) := by
  rcases fe with _ | ⟨f, t⟩
  · simp [List.intercalate, List.intersperse]
  · rw [intercalate_cons2, List.append_assoc]
    exact List.prefix_append m _

lemma infix_intercalate_second (sep a b : List Char) (t : List (List Char))
    (pre : List Char) (h : pre <+: b) :
    containsSub (List.intercalate sep (a :: b :: t)) pre = true := by
  rw [containsSub_iff, intercalate_cons2]
  exact ((h.trans (prefix_intercalate sep b t)).isInfix).trans
    (List.suffix_append _ _).isInfix

/-!
## C2 — independence of the missing-files rule
-/

/-- C2 counterexample: the missing-files rule is NOT independent of the count
rule.  With `{"b.py": "x"}`, expected files `["a.py"]` and minimum count 1, the
expected file `a.py` is absent from a non-empty expected set, yet
`_validate_generated_files` reports ok with no message at all, because the
missing-files check is nested inside the failed-count branch. -/
theorem C2_counterexample :
    (¬ [(("b.py".toList), ("x".toList))].any fun p => p.1 = ("a.py".toList)) ∧
    1 ≤ [(("b.py".toList), ("x".toList))].length ∧
    _validate_generated_files [(("b.py".toList), ("x".toList))] [("a.py".toList)] 1
      = (true, []) := by
  refine ⟨by decide, by decide, by decide⟩

/-- C2 (amended): the missing-files rule fires only together with the count
rule.  (a) Whenever the number of files meets the minimum and no content
retains a fence marker, the validator reports ok even if expected filenames
are absent; (b) whenever the count rule fires and the non-empty expected set
has absent filenames, the report names the missing files. -/
theorem C2_amended (files : List (List Char × List Char))
    (expected_files : List (List Char)) (expected_min_files : Nat) :
    (expected_min_files ≤ files.length →
      (∀ p ∈ files, containsSub p.2 ("\x60\x60\x60".toList) = false) →
      _validate_generated_files files expected_files expected_min_files = (true, [])) ∧
    (files.length < expected_min_files → ¬ expected_files.isEmpty →
      ¬ (expected_files.filter fun name => ¬ files.any fun p => p.1 = name).isEmpty →
      (_validate_generated_files files expected_files expected_min_files).1 = false ∧
      containsSub (_validate_generated_files files expected_files expected_min_files).2
        ("Missing files: ".toList) = true) := by
  constructor
  · intro hlen hfence
    have h1 : ¬ files.length < expected_min_files := by omega
    have h2 : files.filter (fun p => containsSub p.2 ("\x60\x60\x60".toList)) = [] := by
      rw [List.filter_eq_nil_iff]
      intro p hp
      simpa using hfence p hp
    simp only [_validate_generated_files, if_neg h1, h2]
    simp [List.intercalate]
  · intro hlen hne hmiss
    simp only [_validate_generated_files, if_pos hlen, if_pos hne, if_pos hmiss]
    constructor
    · simp
    · rw [List.cons_append, List.singleton_append]
      exact infix_intercalate_second _ _ _ _ _ (List.prefix_append _ _)

/-- C2 witness: the amended theorem applied to the concrete set `{"b.py": "x"}`
with expected files `["a.py"]` and minimum 1. -/
theorem C2_witness :
    _validate_generated_files [(("b.py".toList), ("x".toList))] [("a.py".toList)] 1
      = (true, []) :=
  (C2_amended [(("b.py".toList), ("x".toList))] [("a.py".toList)] 1).1
    (by decide) (by decide)

/-!
## C5 — the expected file set is a list, not a set
-/

/-- C5 counterexample: mentioning the same filename twice raises the minimum
above the number of distinct files requested.  For the request
"Create main.py and main.py" the extraction yields two (equal) mentions, the
set of distinct filenames has size 1, and the minimum used by `generateCode`
is 2, not 1. -/
theorem C5_counterexample :
    _extract_requested_filenames ("Create main.py and main.py".toList)
      = [("main.py".toList), ("main.py".toList)] ∧
    (_extract_requested_filenames ("Create main.py and main.py".toList)).dedup.length
      = 1 ∧
    expectedMinFiles ("Create main.py and main.py".toList) = 2 := by
  refine ⟨by decide, by decide, by decide⟩

/-- C5 (amended): for every request text the minimum file count used by the
structural validator equals 1 when no filename with a recognized extension is
mentioned, and otherwise equals the number of filename MENTIONS counted with
multiplicity — a duplicate mention raises the minimum. -/
theorem C5_amended (code_request : List Char) :
    expectedMinFiles code_request =
      if (_extract_requested_filenames code_request).length = 0 then 1
      else (_extract_requested_filenames code_request).length := by
  unfold expectedMinFiles
  split <;> omega

/-!
## C9 — last-write-wins on duplicate filenames
-/

lemma foldl_parseStep_ne_nil (secs : List (List Char × List Char))
    (acc : List (List Char × List Char)) (hacc : acc ≠ []) :
    secs.foldl parseStep acc ≠ [] := by
  induction secs generalizing acc with
  | nil => simpa using hacc
  | cons fb t ih =>
    rw [List.foldl_cons]
    refine ih _ ?_
    simp only [parseStep]
    split
    · exact dictInsert_ne_nil _ _ _
    · exact hacc

/-- C9 counterexample: when the second of two sections sharing a filename
cleans to an empty body, it is discarded and the FIRST section's content
survives, so the parse result does not equal the second section's cleaned
body. -/
theorem C9_counterexample :
    headerSections ("### a.py\ncode\n### a.py\n".toList)
      = [(("a.py".toList), ("\ncode\n".toList)), (("a.py".toList), ("\n".toList))] ∧
    _strip_markdown ("\n".toList) = [] ∧
    parse_code_response ("### a.py\ncode\n### a.py\n".toList)
      = [(("a.py".toList), ("code".toList))] ∧
    ("code".toList) ≠ ([] : List Char) := by
  refine ⟨by decide, by decide, by decide, by decide⟩

/-- C9 (amended): for every input text containing exactly two header sections
bearing the same filename, if the second section's cleaned body is non-empty
then `parse_code_response` yields exactly one entry under that filename whose
content is the second section's cleaned body; a second section cleaning to
empty is instead discarded (so the first section's content, if any, survives). -/
theorem C9_amended (raw f b1 b2 : List Char)
    (h : headerSections raw = [(f, b1), (f, b2)])
    (h2 : ¬ (_strip_markdown b2).isEmpty) :
    parse_code_response raw = [(pyStrip f, _strip_markdown b2)] := by
  unfold parse_code_response
  rw [h]
  simp only [List.isEmpty_cons, Bool.false_eq_true, if_neg, ite_false,
    List.foldl_cons, List.foldl_nil]
  by_cases hb1 : (_strip_markdown b1).isEmpty
  · simp [parseStep, hb1, h2, dictInsert]
  · simp [parseStep, hb1, h2, dictInsert]

/-- C9 witness: the amended theorem applied to a concrete reply with two
`a.py` sections whose second body is non-empty. -/
theorem C9_witness :
    parse_code_response ("### a.py\nx\n### a.py\ny".toList)
      = [(("a.py".toList), ("y".toList))] := by
  have h := C9_amended ("### a.py\nx\n### a.py\ny".toList) ("a.py".toList)
    ("\nx\n".toList) ("\ny".toList) (by decide) (by decide)
  rw [h]
  decide

/-!
## C10 — the empty-result characterization of `parse_code_response`
-/

lemma foldl_parseStep_nil_iff (secs : List (List Char × List Char)) :
    secs.foldl parseStep [] = [] ↔ ∀ fb ∈ secs, _strip_markdown fb.2 = [] := by
  induction secs with
  | nil => simp
  | cons fb t ih =>
    rw [List.foldl_cons]
    by_cases hc : (_strip_markdown fb.2).isEmpty
    · have hstep : parseStep [] fb = [] := by
        unfold parseStep
        simp [hc]
      rw [hstep, ih]
      constructor
      · intro hall g hg
        rcases List.mem_cons.mp hg with rfl | hg'
        · exact List.isEmpty_iff.mp hc
        · exact hall g hg'
      · intro hall g hg
        exact hall g (List.mem_cons_of_mem _ hg)
    · have hstep : parseStep [] fb ≠ [] := by
        unfold parseStep
        simp only [hc]
        simp only [Bool.false_eq_true, not_false_eq_true, if_true]
        exact dictInsert_ne_nil _ _ _
      constructor
      · intro hfold
        exact absurd hfold (foldl_parseStep_ne_nil _ _ hstep)
      · intro hall
        exact absurd (hall fb (List.mem_cons_self _ _))
          (by simpa [List.isEmpty_iff] using hc)

/-- C10 (confirmed): `parse_code_response` returns an empty mapping iff the
input contains at least one header marker and every delimited section's body
is empty after cleaning; with no header marker it returns exactly one entry;
and `generateCode`'s fallback (binding the raw trimmed reply to a guessed
default filename) is taken exactly in the empty-result case. -/
theorem C10_confirmed (raw : List Char) :
    (parse_code_response raw = [] ↔
      headerSections raw ≠ [] ∧
        ∀ fb ∈ headerSections raw, _strip_markdown fb.2 = []) ∧
    (headerSections raw = [] → (parse_code_response raw).length = 1) ∧
    (parse_code_response raw = [] →
      attemptExtract raw = [(_detect_default_filename raw, pyStrip raw)]) ∧
    (parse_code_response raw ≠ [] → attemptExtract raw = parse_code_response raw) := by
  refine ⟨?_, ?_, ?_, ?_⟩
  · by_cases hms : (headerSections raw).isEmpty
    · have hms' : headerSections raw = [] := List.isEmpty_iff.mp hms
      unfold parse_code_response
      simp [hms, hms']
    · have hms' : headerSections raw ≠ [] := by
        simpa [List.isEmpty_iff] using hms
      unfold parse_code_response
      simp only [hms, Bool.false_eq_true, if_neg, ite_false]
      rw [foldl_parseStep_nil_iff]
      simp [hms']
  · intro hms
    unfold parse_code_response
    simp [hms]
  · intro hp
    unfold attemptExtract
    simp [hp]
  · intro hp
    unfold attemptExtract
    rcases he : parse_code_response raw with _ | ⟨p, t⟩
    · exact absurd he hp
    · simp

/-- C10 witness: the characterization applied to a concrete reply whose only
section cleans to an empty body, yielding the empty mapping. -/
theorem C10_witness :
    parse_code_response ("### a.py\n\x60\x60\x60\n\x60\x60\x60".toList) = [] :=
  (C10_confirmed _).1.mpr ⟨by decide, by decide⟩

/-!
## C3 — filename shape of `parse_code_response`
-/

lemma ws_not_fnChar {c : Char} (h : isWS c = true) : isFnChar c = false := by
  simp only [isWS, Bool.or_eq_true, decide_eq_true_eq, or_assoc] at h
  rcases h with h | h | h | h | h | h <;> subst h <;> decide

lemma fnChar_not_ws {c : Char} (h : isFnChar c = true) : isWS c = false := by
  cases hw : isWS c
  · rfl
  · rw [ws_not_fnChar hw] at h
    cases h

lemma dropWhile_eq_self_of_all {p : Char → Bool} {l : List Char}
    (h : ∀ c ∈ l, p c = false) : l.dropWhile p = l := by
  cases l with
  | nil => rfl
  | cons c t =>
    rw [List.dropWhile_cons, h c (List.mem_cons_self _ _)]
    simp

lemma pyStrip_of_fnChar {f : List Char} (h : f.all isFnChar = true) :
    pyStrip f = f := by
  have hws : ∀ c ∈ f, isWS c = false := fun c hc =>
    fnChar_not_ws (List.all_eq_true.mp h c hc)
  unfold pyStrip
  rw [dropWhile_eq_self_of_all hws,
    dropWhile_eq_self_of_all (fun c hc => hws c (List.mem_reverse.mp hc)),
    List.reverse_reverse]

lemma tryHeader_name {s f r : List Char} (h : tryHeader s = some (f, r)) :
    f ≠ [] ∧ f.all isFnChar = true := by
  unfold tryHeader at h
  split at h
  · dsimp only at h
    split at h
    · exact absurd h (by simp)
    · split at h
      · exact absurd h (by simp)
      · rename_i hne
        injection h with h'
        obtain ⟨h1, _⟩ := Prod.mk.injEq .. ▸ h'
        subst h1
        refine ⟨by simpa [List.isEmpty_iff] using hne, ?_⟩
        rw [List.all_eq_true]
        exact fun c hc => List.mem_takeWhile_imp hc
  · exact absurd h (by simp)

lemma preScan_name {s f r : List Char} (h : preScan s = some (f, r)) :
    f ≠ [] ∧ f.all isFnChar = true := by
  induction s with
  | nil => exact absurd h (by simp [preScan])
  | cons c t ih =>
    unfold preScan at h
    split at h
    · rcases hth : tryHeader t with _ | fr <;> rw [hth] at h
      · exact ih h
      · injection h with h'
        subst h'
        exact tryHeader_name hth
    · exact ih h

lemma scanChars_names (s : List Char) : ∀ (f acc : List Char) (skip : Nat),
    f ≠ [] → f.all isFnChar = true →
    ∀ p ∈ scanChars f acc skip s, p.1 ≠ [] ∧ p.1.all isFnChar = true := by
  induction s with
  | nil =>
    intro f acc skip h1 h2 p hp
    simp only [scanChars, List.mem_singleton] at hp
    subst hp
    exact ⟨h1, h2⟩
  | cons c rest ih =>
    intro f acc skip h1 h2 p hp
    cases skip with
    | succ n =>
      exact ih f acc n h1 h2 p hp
    | zero =>
      simp only [scanChars] at hp
      split at hp
      · rcases hth : tryHeader rest with _ | ⟨f2, r2⟩ <;> rw [hth] at hp
        · exact ih f _ 0 h1 h2 p hp
        · rcases List.mem_cons.mp hp with rfl | hp'
          · exact ⟨h1, h2⟩
          · exact ih f2 [] _ (tryHeader_name hth).1 (tryHeader_name hth).2 p hp'
      · exact ih f _ 0 h1 h2 p hp

lemma headerSections_names (s : List Char) :
    ∀ p ∈ headerSections s, p.1 ≠ [] ∧ p.1.all isFnChar = true := by
  intro p hp
  unfold headerSections at hp
  rcases h1 : tryHeader s with _ | ⟨f, r⟩ <;> rw [h1] at hp
  · rcases h2 : preScan s with _ | ⟨f, r⟩ <;> rw [h2] at hp
    · cases hp
    · exact scanChars_names r f [] 0 (preScan_name h2).1 (preScan_name h2).2 p hp
  · exact scanChars_names r f [] 0 (tryHeader_name h1).1 (tryHeader_name h1).2 p hp

lemma mem_dictInsert {l : List (List Char × List Char)} {k v : List Char}
    {p : List Char × List Char} (hp : p ∈ dictInsert l k v) :
    p.1 = k ∨ ∃ c, (p.1, c) ∈ l := by
  unfold dictInsert at hp
  split at hp
  · obtain ⟨q, hq, heq⟩ := List.mem_map.mp hp
    by_cases hk : q.1 = k
    · rw [if_pos hk] at heq
      left
      rw [← heq]
    · rw [if_neg hk] at heq
      right
      exact ⟨q.2, by rw [← heq]; simpa using hq⟩
  · rcases List.mem_append.mp hp with h1 | h1
    · exact Or.inr ⟨p.2, by simpa using h1⟩
    · left
      simp only [List.mem_singleton] at h1
      rw [h1]

lemma lookup_mem_values {k v : List Char} {l : List (List Char × List Char)}
    (h : List.lookup k l = some v) : v ∈ l.map Prod.snd := by
  induction l with
  | nil => cases h
  | cons p t ih =>
    rw [List.lookup] at h
    split at h
    · injection h with h'
      subst h'
      exact List.mem_cons_self _ _
    · exact List.mem_cons_of_mem _ (ih h)

lemma default_name_good (raw : List Char) :
    _detect_default_filename raw ≠ [] ∧
      (_detect_default_filename raw).all isFnChar = true := by
  unfold _detect_default_filename
  rcases detectLang raw with _ | lang
  · exact ⟨by decide, by decide⟩
  · dsimp only
    rcases hl : List.lookup (lang.map Char.toLower) extension_map with _ | v
    · exact ⟨by simp, by decide⟩
    · have hv : v ∈ extension_map.map Prod.snd := lookup_mem_values hl
      have hall : ∀ w ∈ extension_map.map Prod.snd, w.all isFnChar = true := by decide
      refine ⟨by simp, ?_⟩
      simp only [Option.getD_some, List.all_append, hall v hv, Bool.and_true]
      decide

lemma foldl_parseStep_names (secs : List (List Char × List Char)) :
    ∀ acc, (∀ p ∈ acc, p.1 ≠ [] ∧ p.1.all isFnChar = true) →
    (∀ fb ∈ secs, fb.1 ≠ [] ∧ fb.1.all isFnChar = true) →
    ∀ p ∈ secs.foldl parseStep acc, p.1 ≠ [] ∧ p.1.all isFnChar = true := by
  induction secs with
  | nil =>
    intro acc hacc _ p hp
    rw [List.foldl_nil] at hp
    exact hacc p hp
  | cons fb t ih =>
    intro acc hacc hsec p hp
    rw [List.foldl_cons] at hp
    refine ih _ ?_ (fun g hg => hsec g (List.mem_cons_of_mem _ hg)) p hp
    intro q hq
    simp only [parseStep] at hq
    split at hq
    · rcases mem_dictInsert hq with h1 | ⟨c0, h1⟩
      · have hfb := hsec fb (List.mem_cons_self _ _)
        rw [h1, pyStrip_of_fnChar hfb.2]
        exact hfb
      · exact hacc (q.1, c0) h1
    · exact hacc q hq

/-- C3 counterexample: `parse_code_response` can return a filename with a
parent-directory escape: the reply with header `### ../evil.py` yields the key
`../evil.py`, which contains a `..` segment. -/
theorem C3_counterexample :
    (parse_code_response
        ("### ../evil.py\n\x60\x60\x60python\nbad\n\x60\x60\x60".toList)).map
        Prod.fst
      = [("../evil.py".toList)] ∧
    containsSub ("../evil.py".toList) ("..".toList) = true := by
  refine ⟨by decide, by decide⟩

/-- C3 (amended): every filename in the set produced by `parse_code_response`
is a non-empty string over the header pattern's character class (word
characters, `-`, `.`, `/`) — but nothing excludes `..` segments, so `saveCode`
may be driven outside the configured output directory. -/
theorem C3_amended (raw f c : List Char)
    (h : (f, c) ∈ parse_code_response raw) :
    f ≠ [] ∧ f.all isFnChar = true := by
  simp only [parse_code_response] at h
  split at h
  · simp only [List.mem_singleton] at h
    obtain ⟨h1, _⟩ := Prod.mk.injEq .. ▸ h
    subst h1
    exact default_name_good raw
  · have := foldl_parseStep_names (headerSections raw) []
      (by intro p hp; cases hp) (headerSections_names raw) (f, c) h
    exact this

/-- C3 witness: the amended theorem applied to a concrete single-fence reply,
whose guessed filename is `main.py`. -/
theorem C3_witness :
    ("main.py".toList) ≠ ([] : List Char) ∧
      ("main.py".toList).all isFnChar = true :=
  C3_amended ("\x60\x60\x60python\nx\n\x60\x60\x60".toList) ("main.py".toList)
    ("x".toList) (by decide)

/-!
## Trace observables and loop lemmas
-/

/-- Is the event a model invocation? -/
def isInvokeEv : Event → Bool
  | .modelInvoked => true
  | _ => false

/-- Is the event a structural-validation report? -/
def isStructEv : Event → Bool
  | .structChecked _ => true
  | _ => false

/-- Is the event an application of the lint validator (returning or raising)? -/
def isLintEv : Event → Bool
  | .ruffChecked _ => true
  | .ruffRaised => true
  | _ => false

/-- Is the event a failed structural-validation report? -/
def isStructFalseEv : Event → Bool
  | .structChecked b => !b
  | _ => false

/-- Number of model invocations in a trace. -/
def countInvoke (tr : List Event) : Nat := tr.countP isInvokeEv

/-- Number of structural-validation reports in a trace. -/
def countStruct (tr : List Event) : Nat := tr.countP isStructEv

/-- Number of lint-validator applications in a trace. -/
def countLint (tr : List Event) : Nat := tr.countP isLintEv

/-- Number of failed structural-validation reports in a trace. -/
def countStructFalse (tr : List Event) : Nat := tr.countP isStructFalseEv

lemma runSaves_countP (env : GenEnv) (p : Event → Bool)
    (hp : ∀ n r, p (.fileSaved n r) = false)
    (hq : ∀ n, p (.saveRaised n) = false) :
    ∀ ex, ((runSaves env ex).1).countP p = 0 := by
  intro ex
  induction ex with
  | nil => rfl
  | cons q t ih =>
    simp only [runSaves]
    rcases hsc : saveCode env q.1 q.2 with e | r
    · simp [hq]
    · simp [List.countP_cons, hp, ih]

lemma runSaves_snd (env : GenEnv) (hmk : env.makedirs = .ok ()) :
    ∀ ex, (runSaves env ex).2 = none := by
  intro ex
  induction ex with
  | nil => rfl
  | cons q t ih =>
    simp only [runSaves, saveCode, hmk]
    rcases env.write q.1 q.2 with _ | _
    · exact ih
    · exact ih

lemma runSaves_cons (env : GenEnv) (q : List Char × List Char)
    (t : List (List Char × List Char)) :
    runSaves env (q :: t)
      = match saveCode env q.1 q.2 with
        | .error e => ([.saveRaised q.1], some e)
        | .ok r => (.fileSaved q.1 r :: (runSaves env t).1, (runSaves env t).2) :=
  rfl

lemma runSaves_mem (env : GenEnv) :
    ∀ ex, (runSaves env ex).2 = none →
      ∀ p ∈ ex, ∃ r, saveCode env p.1 p.2 = .ok r ∧
        Event.fileSaved p.1 r ∈ (runSaves env ex).1 := by
  intro ex
  induction ex with
  | nil =>
    intro _ p hp
    cases hp
  | cons q t ih =>
    intro hnone p hp
    rcases hsc : saveCode env q.1 q.2 with e | r
    · rw [runSaves_cons, hsc] at hnone
      cases hnone
    · rw [runSaves_cons, hsc] at hnone
      rw [runSaves_cons, hsc]
      dsimp only at hnone ⊢
      rcases List.mem_cons.mp hp with rfl | hmem
      · exact ⟨r, hsc, List.mem_cons_self _ _⟩
      · obtain ⟨r', h1, h2⟩ := ih hnone p hmem
        exact ⟨r', h1, List.mem_cons_of_mem _ h2⟩

lemma run_ruff_ok (env : GenEnv) (h : ∀ fl, ∃ x, env.ruff fl = Except.ok x)
    (files : List (List Char × List Char)) :
    ∃ y, _run_ruff_check env files = Except.ok y := by
  simp only [_run_ruff_check]
  split
  · exact ⟨_, rfl⟩
  · obtain ⟨⟨rc, out, err⟩, hx⟩ := h _
    rw [hx]
    dsimp only
    split
    · exact ⟨_, rfl⟩
    · exact ⟨_, rfl⟩

lemma genLoop_ok (env : GenEnv) (ef : List (List Char)) (emin : Nat)
    (h : ∀ fl, ∃ x, env.ruff fl = Except.ok x)
    (hmk : env.makedirs = .ok ()) :
    ∀ n, n ≠ 0 → ∀ msgs, ∃ m, (genLoop env ef emin msgs n).outcome = .ok m := by
  intro n
  induction n with
  | zero => intro h0; exact absurd rfl h0
  | succ k ih =>
    intro _ msgs
    simp only [genLoop]
    split
    · rename_i hc
      exact ih hc.2 _
    · obtain ⟨⟨rok, rerrs⟩, hr⟩ := run_ruff_ok env h
        (attemptExtract (env.respond msgs))
      rw [hr]
      dsimp only
      split
      · rw [runSaves_snd env hmk]
        exact ⟨_, rfl⟩
      · split
        · rename_i hk
          exact ih hk _
        · rw [runSaves_snd env hmk]
          exact ⟨_, rfl⟩


/-!
## C1 — exception propagation
-/

/-- A stub environment: a model reply that parses to one Python file, a
checker reporting no issues, a workspace directory that stands up, writes
that succeed. -/
def envRespondPy : GenEnv where
  respond := fun _ => ("\x60\x60\x60python\nx = 1\n\x60\x60\x60".toList)
  ruff := fun _ => .ok (0, [], [])
  write := fun _ _ => .ok ()
  makedirs := .ok ()
  workspaceDir := "workspace".toList

/-- The stub environment with the checker binary absent: invoking it raises
`FileNotFoundError`. -/
def envRuffAbsent : GenEnv :=
  { envRespondPy with
    ruff := fun _ => .error (.fileNotFoundError
      ("No such file or directory: ruff".toList)) }

/-- The stub environment whose file writes fail. -/
def envWriteFails : GenEnv :=
  { envRespondPy with write := fun _ _ => .error (.osError ("disk full".toList)) }

/-- The stub environment whose workspace-directory creation raises (e.g. a
read-only filesystem): `saveCode` performs it outside its `try`. -/
def envMakedirsFails : GenEnv :=
  { envRespondPy with
    makedirs := .error (.osError
      ("Read-only file system: workspace".toList)) }

/-- A stub environment whose model reply is plain text (one file, never
two). -/
def envHello : GenEnv :=
  { envRespondPy with respond := fun _ => ("hello".toList) }

set_option maxRecDepth 8000 in
/-- C1 counterexample: `generateCode` has two uncaught error paths besides the
parameter `ValueError`s.  With the checker binary absent it propagates the
`FileNotFoundError` raised inside `_run_ruff_check`; and with the workspace
directory failing to stand up it propagates the `OSError` raised by the
`os.makedirs` call that `saveCode` performs outside its `try` — in both cases
an exception that is not a parameter `ValueError` escapes instead of being
converted into a failed report. -/
theorem C1_counterexample :
    (generateCode envRuffAbsent ("write main.py".toList) 5).outcome
      = .error (.fileNotFoundError ("No such file or directory: ruff".toList)) ∧
    (generateCode envMakedirsFails ("write main.py".toList) 5).outcome
      = .error (.osError ("Read-only file system: workspace".toList)) ∧
    (∀ msg, PyExn.fileNotFoundError ("No such file or directory: ruff".toList)
        ≠ PyExn.valueError msg) ∧
    (∀ msg, PyExn.osError ("Read-only file system: workspace".toList)
        ≠ PyExn.valueError msg) := by
  refine ⟨by decide, by decide, ?_, ?_⟩
  · intro msg h
    cases h
  · intro msg h
    cases h

/-- C1 (amended): the parser and structural validator never raise, and when
the external checker invocation returns normally AND the workspace-directory
creation performed by `saveCode` outside its `try` returns normally,
`generateCode` returns a result for every input; the only exceptions it then
produces are the two parameter `ValueError`s raised before the first attempt.
(An exception from the lint workspace, the checker invocation, or the
`os.makedirs` call, however, propagates — see the counterexample.) -/
theorem C1_amended (env : GenEnv) (code_request : List Char) (max_attempts : Int)
    (h : ∀ fl, ∃ x, env.ruff fl = Except.ok x)
    (hmk : env.makedirs = .ok ()) :
    (∃ m, (generateCode env code_request max_attempts).outcome = .ok m) ∨
    (generateCode env code_request max_attempts).outcome
        = .error (.valueError ("code_request must be a non-empty string.".toList)) ∨
    (generateCode env code_request max_attempts).outcome
        = .error (.valueError ("max_attempts must be at least 1.".toList)) := by
  unfold generateCode
  split
  · right; left; rfl
  · split
    · right; right; rfl
    · rename_i h1 h2
      left
      exact genLoop_ok env _ _ h hmk max_attempts.toNat (by omega) _

/-- C1 witness: the amended theorem applied to the concrete stub environment
whose checker and directory creation always return normally. -/
theorem C1_witness :
    (∃ m, (generateCode envRespondPy ("write main.py".toList) 5).outcome = .ok m) ∨
    (generateCode envRespondPy ("write main.py".toList) 5).outcome
        = .error (.valueError ("code_request must be a non-empty string.".toList)) ∨
    (generateCode envRespondPy ("write main.py".toList) 5).outcome
        = .error (.valueError ("max_attempts must be at least 1.".toList)) :=
  C1_amended envRespondPy ("write main.py".toList) 5
    (fun _ => ⟨(0, [], []), rfl⟩) rfl

/-!
## The shape of every loop result
-/

lemma success_ne_warning (d d' : List Char)
    (f f' : List (List Char × List Char)) :
    successMessage d f ≠ warningMessage d' f' := by
  intro h
  unfold successMessage warningMessage at h
  simp only [List.append_assoc] at h
  have h2 := congrArg (List.take 62) h
  rw [List.take_append_of_le_length (by decide),
    List.take_append_of_le_length (by decide)] at h2
  exact absurd h2 (by decide)

/-- Every run of the retry loop ends in a raised exception (from the checker
or from a save), a clean success whose attempt passed both checks and whose
save loop completed without raising on any file, or a caveat success whose
save loop completed without raising on any file. -/
lemma genLoop_shape (env : GenEnv) (ef : List (List Char)) (emin : Nat) :
    ∀ n msgs, n ≠ 0 →
      (∃ e tr, genLoop env ef emin msgs n = ⟨tr, .error e⟩) ∨
      (∃ files tr, genLoop env ef emin msgs n
          = ⟨tr, .ok (successMessage env.workspaceDir files)⟩ ∧
        (∀ p ∈ files, ∃ r, saveCode env p.1 p.2 = .ok r ∧
          Event.fileSaved p.1 r ∈ tr) ∧
        Event.structChecked true ∈ tr ∧ Event.ruffChecked true ∈ tr) ∨
      (∃ files tr, genLoop env ef emin msgs n
          = ⟨tr, .ok (warningMessage env.workspaceDir files)⟩ ∧
        ∀ p ∈ files, ∃ r, saveCode env p.1 p.2 = .ok r ∧
          Event.fileSaved p.1 r ∈ tr) := by
  intro n
  induction n with
  | zero => intro msgs h0; exact absurd rfl h0
  | succ k ih =>
    intro msgs _
    simp only [genLoop]
    split
    · rename_i hc
      rcases ih _ hc.2 with ⟨e, tr, heq⟩ | ⟨files, tr, heq, hs, h1, h2⟩ |
        ⟨files, tr, heq, hs⟩
      · rw [heq]
        exact Or.inl ⟨e, _, rfl⟩
      · rw [heq]
        refine Or.inr (Or.inl ⟨files, _, rfl, ?_, ?_, ?_⟩)
        · exact fun p hp => (hs p hp).imp fun r hr =>
            ⟨hr.1, List.mem_cons_of_mem _ (List.mem_cons_of_mem _ hr.2)⟩
        · exact List.mem_cons_of_mem _ (List.mem_cons_of_mem _ h1)
        · exact List.mem_cons_of_mem _ (List.mem_cons_of_mem _ h2)
      · rw [heq]
        refine Or.inr (Or.inr ⟨files, _, rfl, ?_⟩)
        exact fun p hp => (hs p hp).imp fun r hr =>
          ⟨hr.1, List.mem_cons_of_mem _ (List.mem_cons_of_mem _ hr.2)⟩
    · rcases hr : _run_ruff_check env (attemptExtract (env.respond msgs)) with e |
        ⟨rok, rerrs⟩
      · exact Or.inl ⟨e, _, rfl⟩
      · dsimp only
        split
        · rename_i hc2
          rw [hc2.1, hc2.2]
          rcases hsv : (runSaves env (attemptExtract (env.respond msgs))).2
            with _ | e
          · refine Or.inr (Or.inl ⟨attemptExtract (env.respond msgs), _, rfl,
              ?_, ?_, ?_⟩)
            · intro p hp
              obtain ⟨r, h1, h2⟩ := runSaves_mem env _ hsv p hp
              exact ⟨r, h1, List.mem_append_right _ h2⟩
            · exact List.mem_append_left _ (by simp)
            · exact List.mem_append_left _ (by simp)
          · exact Or.inl ⟨e, _, rfl⟩
        · split
          · rename_i hk
            rcases ih _ hk with ⟨e, tr, heq⟩ | ⟨files, tr, heq, hs, h1, h2⟩ |
              ⟨files, tr, heq, hs⟩
            · rw [heq]
              exact Or.inl ⟨e, _, rfl⟩
            · rw [heq]
              refine Or.inr (Or.inl ⟨files, _, rfl, ?_, ?_, ?_⟩)
              · exact fun p hp => (hs p hp).imp fun r hr =>
                  ⟨hr.1, List.mem_cons_of_mem _
                    (List.mem_cons_of_mem _ (List.mem_cons_of_mem _ hr.2))⟩
              · exact List.mem_cons_of_mem _
                  (List.mem_cons_of_mem _ (List.mem_cons_of_mem _ h1))
              · exact List.mem_cons_of_mem _
                  (List.mem_cons_of_mem _ (List.mem_cons_of_mem _ h2))
            · rw [heq]
              refine Or.inr (Or.inr ⟨files, _, rfl, ?_⟩)
              exact fun p hp => (hs p hp).imp fun r hr =>
                ⟨hr.1, List.mem_cons_of_mem _
                  (List.mem_cons_of_mem _ (List.mem_cons_of_mem _ hr.2))⟩
          · rcases hsv : (runSaves env (attemptExtract (env.respond msgs))).2
              with _ | e
            · refine Or.inr (Or.inr ⟨attemptExtract (env.respond msgs), _, rfl, ?_⟩)
              intro p hp
              obtain ⟨r, h1, h2⟩ := runSaves_mem env _ hsv p hp
              exact ⟨r, h1, List.mem_append_right _ h2⟩
            · exact Or.inl ⟨e, _, rfl⟩

/-!
## C4 — no silent drop vs swallowed write failures
-/

set_option maxRecDepth 8000 in
/-- C4 counterexample: with every file write failing, `generateCode` still
returns the clean success message while the save of `main.py` yielded `none`
(`saveCode` caught the exception); the work was dropped silently. -/
theorem C4_counterexample :
    (generateCode envWriteFails ("write main.py".toList) 1).outcome
      = .ok (successMessage ("workspace".toList)
          [(("main.py".toList), ("x = 1".toList))]) ∧
    Event.fileSaved ("main.py".toList) none
      ∈ (generateCode envWriteFails ("write main.py".toList) 1).trace := by
  refine ⟨by decide, by decide⟩

/-- C4 (amended): whenever `generateCode` returns a success message (clean or
caveat), a `saveCode` call was made for every file of the final set and each
returned without raising — but the message does not depend on the `Option`
results of those calls, so a failed (caught) write can still be reported as an
unqualified success. -/
theorem C4_amended (env : GenEnv) (code_request : List Char) (max_attempts : Int)
    (m : List Char)
    (h : (generateCode env code_request max_attempts).outcome = .ok m) :
    ∃ files,
      (m = successMessage env.workspaceDir files ∨
        m = warningMessage env.workspaceDir files) ∧
      ∀ p ∈ files, ∃ r, saveCode env p.1 p.2 = .ok r ∧
        Event.fileSaved p.1 r
          ∈ (generateCode env code_request max_attempts).trace := by
  by_cases h1 : (pyStrip code_request).isEmpty
  · rw [generateCode, if_pos h1] at h
    cases h
  · by_cases h2 : max_attempts < 1
    · rw [generateCode, if_neg h1, if_pos h2] at h
      cases h
    · rw [generateCode, if_neg h1, if_neg h2] at h ⊢
      rcases genLoop_shape env _ _ max_attempts.toNat
          [⟨.system, coding_prompt⟩, ⟨.user, code_request⟩] (by omega) with
        ⟨e, tr, heq⟩ | ⟨files, tr, heq, hs, _, _⟩ | ⟨files, tr, heq, hs⟩
      · rw [heq] at h
        cases h
      · rw [heq] at h ⊢
        injection h with h'
        exact ⟨files, Or.inl h'.symm, hs⟩
      · rw [heq] at h ⊢
        injection h with h'
        exact ⟨files, Or.inr h'.symm, hs⟩

set_option maxRecDepth 8000 in
/-- C4 witness: the amended theorem applied to a concrete clean-success run. -/
theorem C4_witness :
    ∃ files,
      (successMessage ("workspace".toList) [(("main.py".toList), ("x = 1".toList))]
          = successMessage envRespondPy.workspaceDir files ∨
        successMessage ("workspace".toList) [(("main.py".toList), ("x = 1".toList))]
          = warningMessage envRespondPy.workspaceDir files) ∧
      ∀ p ∈ files, ∃ r, saveCode envRespondPy p.1 p.2 = .ok r ∧
        Event.fileSaved p.1 r
          ∈ (generateCode envRespondPy ("write main.py".toList) 1).trace :=
  C4_amended envRespondPy ("write main.py".toList) 1 _ (by decide)

/-!
## C6 — when each validator runs
-/

lemma genLoop_counts (env : GenEnv) (ef : List (List Char)) (emin : Nat) :
    ∀ n msgs,
      countStruct (genLoop env ef emin msgs n).trace
        = countInvoke (genLoop env ef emin msgs n).trace ∧
      countLint (genLoop env ef emin msgs n).trace
        ≤ countInvoke (genLoop env ef emin msgs n).trace ∧
      countInvoke (genLoop env ef emin msgs n).trace
        ≤ countLint (genLoop env ef emin msgs n).trace
          + countStructFalse (genLoop env ef emin msgs n).trace := by
  intro n
  induction n with
  | zero =>
    intro msgs
    simp [genLoop, countStruct, countInvoke, countLint, countStructFalse]
  | succ k ih =>
    intro msgs
    have hsave : ∀ p : Event → Bool, (∀ nm r, p (.fileSaved nm r) = false) →
        (∀ nm, p (.saveRaised nm) = false) →
        ((runSaves env (attemptExtract (env.respond msgs))).1).countP p = 0 :=
      fun p hp hq => runSaves_countP env p hp hq _
    simp only [genLoop]
    split
    · rename_i hc
      obtain ⟨ih1, ih2, ih3⟩ := ih (msgs ++
        [⟨.assistant, env.respond msgs⟩,
          ⟨.user, structFeedback (_validate_generated_files
            (attemptExtract (env.respond msgs)) ef emin).2⟩])
      have hv : (_validate_generated_files (attemptExtract (env.respond msgs))
          ef emin).1 = false := by
        rcases hb : (_validate_generated_files (attemptExtract (env.respond msgs))
            ef emin).1 with _ | _
        · rfl
        · exact absurd hb hc.1
      simp only [countStruct, countInvoke, countLint, countStructFalse,
        List.countP_cons, hv, isInvokeEv, isStructEv, isLintEv, isStructFalseEv]
        at ih1 ih2 ih3 ⊢
      simp at ih1 ih2 ih3 ⊢
      all_goals omega
    · rcases hr : _run_ruff_check env (attemptExtract (env.respond msgs)) with e |
        ⟨rok, rerrs⟩
      · simp [countStruct, countInvoke, countLint, countStructFalse,
          List.countP_cons, isInvokeEv, isStructEv, isLintEv, isStructFalseEv]
      · dsimp only
        split
        · have h1 := hsave isInvokeEv (fun _ _ => rfl) (fun _ => rfl)
          have h2 := hsave isStructEv (fun _ _ => rfl) (fun _ => rfl)
          have h3 := hsave isLintEv (fun _ _ => rfl) (fun _ => rfl)
          have h4 := hsave isStructFalseEv (fun _ _ => rfl) (fun _ => rfl)
          simp only [countStruct, countInvoke, countLint, countStructFalse,
            List.countP_append, List.countP_cons, List.countP_nil, h1, h2, h3, h4,
            isInvokeEv, isStructEv, isLintEv, isStructFalseEv]
          simp
        · split
          · rename_i hk
            obtain ⟨ih1, ih2, ih3⟩ := ih (msgs ++
              [⟨.assistant, env.respond msgs⟩, ⟨.user, ruffFeedback rerrs⟩])
            simp only [countStruct, countInvoke, countLint, countStructFalse,
              List.countP_cons, isInvokeEv, isStructEv, isLintEv,
              isStructFalseEv] at ih1 ih2 ih3 ⊢
            simp at ih1 ih2 ih3 ⊢
            omega
          · have h1 := hsave isInvokeEv (fun _ _ => rfl) (fun _ => rfl)
            have h2 := hsave isStructEv (fun _ _ => rfl) (fun _ => rfl)
            have h3 := hsave isLintEv (fun _ _ => rfl) (fun _ => rfl)
            have h4 := hsave isStructFalseEv (fun _ _ => rfl) (fun _ => rfl)
            simp only [countStruct, countInvoke, countLint, countStructFalse,
              List.countP_append, List.countP_cons, List.countP_nil, h1, h2, h3, h4,
              isInvokeEv, isStructEv, isLintEv, isStructFalseEv]
            simp

/-- C6 counterexample: with a stub model whose reply never meets the expected
two files and `max_attempts = 2`, the run performs two attempts (and two
structural checks) but only ONE lint-validator application: the non-final
failing attempt skips the lint check entirely. -/
theorem C6_counterexample :
    countInvoke (generateCode envHello
      ("Create main.py and utils.py".toList) 2).trace = 2 ∧
    countStruct (generateCode envHello
      ("Create main.py and utils.py".toList) 2).trace = 2 ∧
    countLint (generateCode envHello
      ("Create main.py and utils.py".toList) 2).trace = 1 := by
  refine ⟨by decide, by decide, by decide⟩

/-- C6 (amended): the structural validator is applied on every attempt; the
lint validator is applied at most once per attempt and is skipped only on
attempts whose structural check failed; acceptance (the clean success message)
requires a passed structural report and a passed lint report. -/
theorem C6_amended (env : GenEnv) (code_request : List Char) (max_attempts : Int) :
    countStruct (generateCode env code_request max_attempts).trace
        = countInvoke (generateCode env code_request max_attempts).trace ∧
    countLint (generateCode env code_request max_attempts).trace
        ≤ countInvoke (generateCode env code_request max_attempts).trace ∧
    countInvoke (generateCode env code_request max_attempts).trace
        ≤ countLint (generateCode env code_request max_attempts).trace
          + countStructFalse (generateCode env code_request max_attempts).trace ∧
    (∀ files, (generateCode env code_request max_attempts).outcome
        = .ok (successMessage env.workspaceDir files) →
      Event.structChecked true ∈ (generateCode env code_request max_attempts).trace ∧
      Event.ruffChecked true ∈ (generateCode env code_request max_attempts).trace) := by
  by_cases h1 : (pyStrip code_request).isEmpty
  · rw [generateCode, if_pos h1]
    exact ⟨rfl, Nat.le_refl _, Nat.le_refl _, fun files h => by cases h⟩
  · by_cases h2 : max_attempts < 1
    · rw [generateCode, if_neg h1, if_pos h2]
      exact ⟨rfl, Nat.le_refl _, Nat.le_refl _, fun files h => by cases h⟩
    · rw [generateCode, if_neg h1, if_neg h2]
      obtain ⟨g1, g2, g3⟩ := genLoop_counts env
        (_extract_requested_filenames code_request)
        (expectedMinFiles code_request)
        max_attempts.toNat [⟨.system, coding_prompt⟩, ⟨.user, code_request⟩]
      refine ⟨g1, g2, g3, ?_⟩
      intro files h
      rcases genLoop_shape env _ _ max_attempts.toNat
          [⟨.system, coding_prompt⟩, ⟨.user, code_request⟩] (by omega) with
        ⟨e, tr, heq⟩ | ⟨files', tr, heq, _, hst, hrt⟩ | ⟨files', tr, heq, _⟩
      · rw [heq] at h
        cases h
      · rw [heq]
        exact ⟨hst, hrt⟩
      · rw [heq] at h
        injection h with h'
        exact absurd h'.symm (success_ne_warning _ _ _ _)

set_option maxRecDepth 8000 in
/-- C6 witness: the acceptance conjunct of the amended theorem applied to a
concrete clean-success run. -/
theorem C6_witness :
    Event.structChecked true
        ∈ (generateCode envRespondPy ("write main.py".toList) 5).trace ∧
    Event.ruffChecked true
        ∈ (generateCode envRespondPy ("write main.py".toList) 5).trace :=
  (C6_amended envRespondPy ("write main.py".toList) 5).2.2.2
    [(("main.py".toList), ("x = 1".toList))] (by decide)

/-!
## C7 — bounded retry termination
-/

/-- With a generating model whose every reply fails the structural check, a
checker that returns normally and a workspace directory that stands up, the
loop performs exactly one model invocation per available attempt and ends in
the caveat success, saving the last attempt's files. -/
lemma genLoop_invalid (env : GenEnv) (ef : List (List Char)) (emin : Nat)
    (hinv : ∀ msgs, (_validate_generated_files
      (attemptExtract (env.respond msgs)) ef emin).1 = false)
    (hruff : ∀ fl, ∃ x, env.ruff fl = Except.ok x)
    (hmk : env.makedirs = .ok ()) :
    ∀ n msgs, n ≠ 0 →
      countInvoke (genLoop env ef emin msgs n).trace = n ∧
      ∃ files, (genLoop env ef emin msgs n).outcome
          = .ok (warningMessage env.workspaceDir files) ∧
        ∀ p ∈ files, ∃ r, saveCode env p.1 p.2 = .ok r ∧
          Event.fileSaved p.1 r ∈ (genLoop env ef emin msgs n).trace := by
  intro n
  induction n with
  | zero => intro msgs h0; exact absurd rfl h0
  | succ k ih =>
    intro msgs _
    rcases Nat.eq_zero_or_pos k with rfl | hk
    · simp only [genLoop]
      rw [if_neg (by simp [hinv msgs])]
      obtain ⟨⟨rok, rerrs⟩, hr⟩ := run_ruff_ok env hruff
        (attemptExtract (env.respond msgs))
      rw [hr]
      dsimp only
      rw [if_neg (by simp [hinv msgs]), if_neg (by simp)]
      have hsv : (runSaves env (attemptExtract (env.respond msgs))).2 = none :=
        runSaves_snd env hmk _
      rw [hsv]
      constructor
      · have hs0 := runSaves_countP env isInvokeEv (fun _ _ => rfl) (fun _ => rfl)
          (attemptExtract (env.respond msgs))
        simp only [countInvoke, List.countP_append, List.countP_cons,
          List.countP_nil, isInvokeEv, hs0]
        simp
      · refine ⟨attemptExtract (env.respond msgs), rfl, ?_⟩
        intro p hp
        obtain ⟨r, h1, h2⟩ := runSaves_mem env _ hsv p hp
        exact ⟨r, h1, List.mem_append_right _ h2⟩
    · simp only [genLoop]
      rw [if_pos ⟨by simp [hinv msgs], by omega⟩]
      obtain ⟨c1, files, hout, hsave⟩ := ih (msgs ++
        [⟨.assistant, env.respond msgs⟩,
          ⟨.user, structFeedback (_validate_generated_files
            (attemptExtract (env.respond msgs)) ef emin).2⟩]) (by omega)
      refine ⟨?_, files, hout, ?_⟩
      · simp [countInvoke, List.countP_cons, isInvokeEv] at c1 ⊢
        omega
      · intro p hp
        exact (hsave p hp).imp fun r hr =>
          ⟨hr.1, List.mem_cons_of_mem _ (List.mem_cons_of_mem _ hr.2)⟩

set_option maxRecDepth 8000 in
/-- C7 counterexample: the stub run with `max_attempts = 3` does perform
exactly 3 invocations and returns the caveat message — but that message does
NOT contain the diagnostic text of the failed validation. -/
theorem C7_counterexample :
    (generateCode envHello ("Create main.py and utils.py".toList) 3).outcome
      = .ok (warningMessage ("workspace".toList)
          [(("main.txt".toList), ("hello".toList))]) ∧
    (_validate_generated_files (attemptExtract ("hello".toList))
        (_extract_requested_filenames ("Create main.py and utils.py".toList))
        (expectedMinFiles ("Create main.py and utils.py".toList))).2
      = ("Expected at least 2 files, but got 1.\nMissing files: main.py, utils.py".toList) ∧
    containsSub
      (warningMessage ("workspace".toList) [(("main.txt".toList), ("hello".toList))])
      ((_validate_generated_files (attemptExtract ("hello".toList))
        (_extract_requested_filenames ("Create main.py and utils.py".toList))
        (expectedMinFiles ("Create main.py and utils.py".toList))).2) = false := by
  refine ⟨by decide, by decide, by decide⟩

/-- C7 (amended): for a generating-model stub that always returns structurally
invalid output, a checker invocation that returns normally AND a
workspace-directory creation that returns normally (a `makedirs` failure in
`saveCode` would propagate even here), calling `generateCode` with
`max_attempts = 3` performs exactly 3 model invocations, then persists the
last attempt's file set without raising and returns the success-with-caveat
message — which however does not embed the diagnostic text. -/
theorem C7_amended (env : GenEnv) (code_request : List Char)
    (h1 : ¬ (pyStrip code_request).isEmpty)
    (hinv : ∀ msgs, (_validate_generated_files (attemptExtract (env.respond msgs))
      (_extract_requested_filenames code_request)
      (expectedMinFiles code_request)).1 = false)
    (hruff : ∀ fl, ∃ x, env.ruff fl = Except.ok x)
    (hmk : env.makedirs = .ok ()) :
    countInvoke (generateCode env code_request 3).trace = 3 ∧
    ∃ files, (generateCode env code_request 3).outcome
        = .ok (warningMessage env.workspaceDir files) ∧
      ∀ p ∈ files, ∃ r, saveCode env p.1 p.2 = .ok r ∧
        Event.fileSaved p.1 r ∈ (generateCode env code_request 3).trace := by
  rw [generateCode, if_neg h1, if_neg (by omega)]
  exact genLoop_invalid env _ _ hinv hruff hmk ((3 : Int).toNat) _ (by decide)

set_option maxRecDepth 8000 in
/-- C7 witness: the amended theorem applied to the concrete stub whose reply
is always the single file `main.txt` while the request names two files. -/
theorem C7_witness :
    countInvoke (generateCode envHello
        ("Create main.py and utils.py".toList) 3).trace = 3 ∧
    ∃ files, (generateCode envHello
          ("Create main.py and utils.py".toList) 3).outcome
        = .ok (warningMessage envHello.workspaceDir files) ∧
      ∀ p ∈ files, ∃ r, saveCode envHello p.1 p.2 = .ok r ∧
        Event.fileSaved p.1 r
          ∈ (generateCode envHello ("Create main.py and utils.py".toList) 3).trace :=
  C7_amended envHello ("Create main.py and utils.py".toList) (by decide)
    (fun _ => by
      show (_validate_generated_files (attemptExtract ("hello".toList))
        (_extract_requested_filenames ("Create main.py and utils.py".toList))
        (expectedMinFiles ("Create main.py and utils.py".toList))).1 = false
      decide)
    (fun _ => ⟨(0, [], []), rfl⟩) rfl

/-!
## C8 — round-trip of the canonical render template

`renderFileSet` renders a file set with the canonical template the system
prompt demands: a `### filename` header line followed by a fenced code block
per file.
-/

/-- Three backticks. -/
def fence3 : List Char := ['\x60', '\x60', '\x60']

/-- The fenced block of one rendered file, between the header line's newline
and the trailing newline: ```` ```lang\ncontent\n``` ````. -/
def fbCore (lang content : List Char) : List Char :=
  fence3 ++ (lang ++ '\n' :: content ++ ['\n']) ++ fence3

/-- What follows a rendered file's filename: newline, fenced block, newline. -/
def fileBody (lang content : List Char) : List Char :=
  '\n' :: fbCore lang content ++ ['\n']

/-- One file in the canonical template: `### filename` then a fenced block. -/
def renderFile (lang : List Char) (p : List Char × List Char) : List Char :=
  "### ".toList ++ p.1 ++ fileBody lang p.2

/-- A whole file set in the canonical template. -/
def renderFileSet (lang : List Char) (files : List (List Char × List Char)) :
    List Char :=
  (files.map (renderFile lang)).flatten

/-!
### Cleaning a rendered body
-/

lemma dropWhile_idem (p : Char → Bool) (l : List Char) :
    (l.dropWhile p).dropWhile p = l.dropWhile p := by
  induction l with
  | nil => rfl
  | cons a t ih =>
    rw [List.dropWhile_cons]
    split
    · exact ih
    · rw [List.dropWhile_cons]
      simp_all

lemma pyStrip_append_ws (x : List Char) (a : Char) (h : isWS a = true) :
    pyStrip (x ++ [a]) = pyStrip x := by
  unfold pyStrip
  rw [List.dropWhile_append]
  split
  · rename_i hx
    rw [List.isEmpty_iff] at hx
    rw [hx]
    simp [List.dropWhile_cons, h]
  · rename_i hx
    simp only [List.reverse_append, List.reverse_singleton, List.singleton_append,
      List.dropWhile_cons, h, if_true]

lemma pyStrip_dropWhile (c : List Char) : pyStrip (c.dropWhile isWS) = pyStrip c := by
  unfold pyStrip
  rw [dropWhile_idem]

lemma pyStrip_ne_nil_dropWhile {c : List Char} (h : pyStrip c ≠ []) :
    c.dropWhile isWS ≠ [] := by
  intro hc
  apply h
  unfold pyStrip
  rw [hc]
  rfl

lemma pyStrip_fileBody (lang c : List Char) :
    pyStrip (fileBody lang c) = fbCore lang c := by
  unfold fileBody fbCore pyStrip fence3
  simp only [List.cons_append, List.append_assoc, List.dropWhile_cons]
  norm_num [isWS]
  simp [List.reverse_append, List.dropWhile_cons, isWS]

lemma containsSub_of_middle {l s : List Char} (h : containsSub l s = false)
    {m : List Char} (hm : m <:+: l) : containsSub m s = false := by
  cases hc : containsSub m s
  · rfl
  · exfalso
    rw [containsSub_iff] at hc
    have hl : containsSub l s = true := by
      rw [containsSub_iff]
      exact hc.trans hm
    rw [hl] at h
    cases h

lemma fence_notin_append_nl {x : List Char}
    (h : containsSub x fence3 = false) :
    containsSub (x ++ ['\n']) fence3 = false := by
  cases hc : containsSub (x ++ ['\n']) fence3
  · rfl
  · exfalso
    rw [containsSub_iff] at hc
    obtain ⟨u, v, huv⟩ := hc
    rcases List.eq_nil_or_concat v with rfl | ⟨v', a, rfl⟩
    · rw [List.append_nil] at huv
      have huv2 : (u ++ ['\x60', '\x60']) ++ ['\x60'] = x ++ ['\n'] := by
        rw [← huv]
        simp [fence3]
      obtain ⟨_, hbad⟩ := List.append_inj' huv2 rfl
      simp at hbad
    · have huv' : (u ++ fence3 ++ v') ++ [a] = x ++ ['\n'] := by
        rw [← huv]
        simp [List.append_assoc]
      obtain ⟨h1, _⟩ := List.append_inj' huv' rfl
      have : fence3 <:+: x := ⟨u, v', by rw [← h1]⟩
      rw [← containsSub_iff] at this
      rw [this] at h
      cases h

lemma findClose_append_fence :
    ∀ x : List Char, containsSub x fence3 = false →
    (∀ y, x ≠ y ++ ['\x60']) →
    findClose (x ++ fence3) = some (x, []) := by
  intro x
  induction x with
  | nil => intro _ _; rfl
  | cons a x' ih =>
    intro h1 h2
    rw [List.cons_append, findClose.eq_def]
    split
    · rename_i rest heq
      -- a :: (x' ++ fence3) = '\x60'::'\x60'::'\x60':: rest
      exfalso
      injection heq with ha htail
      subst ha
      rcases x' with _ | ⟨b, x''⟩
      · exact h2 [] rfl
      · injection htail with hb htail2
        subst hb
        rcases x'' with _ | ⟨c, x'''⟩
        · exact h2 ['\x60'] rfl
        · injection htail2 with hc _
          subst hc
          have : containsSub ('\x60' :: '\x60' :: '\x60' :: x''') fence3 = true := by
            rw [containsSub_iff]
            exact ⟨[], x''', rfl⟩
          rw [this] at h1
          cases h1
    · rename_i x1 c rest hno hscrut
      -- second arm: (findClose rest).map ...
      injection hscrut with hc htail
      subst hc
      rw [← htail]
      have hx1 : containsSub x' fence3 = false := by
        cases hcc : containsSub x' fence3
        · rfl
        · rw [containsSub_iff] at hcc
          have : containsSub (a :: x') fence3 = true := by
            rw [containsSub_iff]
            exact hcc.trans (List.suffix_cons a x').isInfix
          rw [this] at h1
          cases h1
      have hx2 : ∀ y, x' ≠ y ++ ['\x60'] := by
        intro y hy
        exact h2 (a :: y) (by rw [hy]; rfl)
      rw [ih hx1 hx2]
      rfl
    · rename_i hno hscrut
      -- third arm: scrutinee = [] — impossible
      cases hscrut

lemma findFencesAux_consume : ∀ (l : List Char) (k : Nat), l.length ≤ k →
    findFencesAux k l = [] := by
  intro l
  induction l with
  | nil =>
    intro k _
    rfl
  | cons c rest ih =>
    intro k hk
    rcases k with _ | n
    · simp at hk
    · exact ih n (by simpa using hk)

lemma findFencesAux_fence_head (rest2 : List Char) :
    findFencesAux 0 ('\x60' :: '\x60' :: '\x60' :: rest2)
      = (match findClose ((rest2.dropWhile isTagChar).dropWhile isWS) with
        | some (body, after) =>
          body :: findFencesAux (('\x60' :: '\x60' :: rest2).length - after.length)
            ('\x60' :: '\x60' :: rest2)
        | none => findFencesAux 0 ('\x60' :: '\x60' :: rest2)) := rfl

lemma findFences_fbCore (lang c : List Char) (hlang : lang.all isTagChar = true)
    (hcf : containsSub c fence3 = false) (hcb : pyStrip c ≠ []) :
    findFences (fbCore lang c) = [c.dropWhile isWS ++ ['\n']] := by
  have hdwc : c.dropWhile isWS ≠ [] := pyStrip_ne_nil_dropWhile hcb
  have hshape : fbCore lang c
      = '\x60' :: '\x60' :: '\x60' :: (lang ++ ('\n' :: (c ++ ('\n' :: fence3)))) := by
    simp [fbCore, fence3, List.append_assoc]
  have hdrop : ((lang ++ ('\n' :: (c ++ ('\n' :: fence3)))).dropWhile
        isTagChar).dropWhile isWS
      = (c.dropWhile isWS ++ ['\n']) ++ fence3 := by
    rw [List.dropWhile_append_of_pos (fun a ha => List.all_eq_true.mp hlang a ha)]
    rw [List.dropWhile_cons, if_neg (by decide : ¬ isTagChar '\n' = true)]
    rw [List.dropWhile_cons, if_pos (by decide : isWS '\n' = true)]
    rw [List.dropWhile_append]
    have h2 : (c.dropWhile isWS).isEmpty = false := by
      rcases hd : c.dropWhile isWS with _ | _
      · exact absurd hd hdwc
      · rfl
    simp only [h2, Bool.false_eq_true, if_false]
    simp [List.append_assoc]
  have hfree : containsSub (c.dropWhile isWS ++ ['\n']) fence3 = false :=
    fence_notin_append_nl
      (containsSub_of_middle hcf (List.dropWhile_suffix isWS).isInfix)
  have hlast : ∀ y, c.dropWhile isWS ++ ['\n'] ≠ y ++ ['\x60'] := by
    intro y hy
    obtain ⟨_, h2⟩ := List.append_inj' hy rfl
    simp at h2
  unfold findFences
  rw [hshape, findFencesAux_fence_head, hdrop,
    findClose_append_fence (c.dropWhile isWS ++ ['\n']) hfree hlast]
  dsimp only
  rw [findFencesAux_consume]
  simp

lemma strip_markdown_fileBody (lang c : List Char)
    (hlang : lang.all isTagChar = true)
    (hcf : containsSub c fence3 = false) (hcb : pyStrip c ≠ []) :
    _strip_markdown (fileBody lang c) = pyStrip c := by
  simp only [_strip_markdown]
  rw [pyStrip_fileBody, findFences_fbCore lang c hlang hcf hcb]
  have hp : pyStrip (c.dropWhile isWS ++ ['\n']) = pyStrip c := by
    rw [pyStrip_append_ws _ _ (by decide : isWS '\n' = true), pyStrip_dropWhile]
  simp only [List.isEmpty_cons, Bool.false_eq_true, not_false_eq_true, if_true,
    List.map_cons, List.map_nil, hp]
  have hps : (pyStrip c).isEmpty = false := by
    rcases hd : pyStrip c with _ | _
    · exact absurd hd hcb
    · rfl
  simp only [List.intercalate]
  have hfilter : List.filter (fun b => !decide (b = [])) [pyStrip c]
      = [pyStrip c] := by
    simp [List.filter, hcb]
  simp [hfilter, List.intersperse]

/-!
### Scanning the rendered text for headers
-/

lemma tryHeader_render (f rest' : List Char) (hf1 : f ≠ [])
    (hf2 : f.all isFnChar = true) :
    tryHeader ("### ".toList ++ f ++ '\n' :: rest') = some (f, '\n' :: rest') := by
  rcases f with _ | ⟨a, f'⟩
  · exact absurd rfl hf1
  have ha : isFnChar a = true := List.all_eq_true.mp hf2 a (List.mem_cons_self _ _)
  have hshape : "### ".toList ++ (a :: f') ++ '\n' :: rest'
      = '#' :: '#' :: '#' :: (' ' :: (a :: (f' ++ '\n' :: rest'))) := by simp
  have hs3 : (' ' :: (a :: (f' ++ '\n' :: rest'))).dropWhile isWS
      = a :: (f' ++ '\n' :: rest') := by
    rw [List.dropWhile_cons, if_pos (by decide : isWS ' ' = true),
      List.dropWhile_cons, if_neg (by simp [fnChar_not_ws ha])]
  have htake : (a :: (f' ++ '\n' :: rest')).takeWhile isFnChar = a :: f' := by
    have hsplit : (a :: f') ++ '\n' :: rest' = a :: (f' ++ '\n' :: rest') := by simp
    rw [← hsplit, List.takeWhile_append_of_pos (List.all_eq_true.mp hf2),
      List.takeWhile_cons, if_neg (by decide : ¬ isFnChar '\n' = true)]
    simp
  have hdrop2 : (a :: (f' ++ '\n' :: rest')).drop (a :: f').length
      = '\n' :: rest' := by
    have hsplit : (a :: f') ++ '\n' :: rest' = a :: (f' ++ '\n' :: rest') := by simp
    rw [← hsplit, List.drop_left]
  unfold tryHeader
  rw [hshape]
  have hs0 : List.dropWhile isWS
      ('#' :: '#' :: '#' :: (' ' :: (a :: (f' ++ '\n' :: rest'))))
      = '#' :: '#' :: '#' :: (' ' :: (a :: (f' ++ '\n' :: rest'))) := by
    rw [List.dropWhile_cons, if_neg (by decide : ¬ isWS '#' = true)]
  rw [hs0]
  split
  · rename_i s2 heq
    injection heq with h1 heq1
    injection heq1 with h2 heq2
    injection heq2 with h3 heq3
    subst heq3
    rw [hs3]
    dsimp only
    rw [if_neg (by simp [List.length_cons]), htake, if_neg (by simp), hdrop2]
  · rename_i x hno
    exact absurd rfl (hno (' ' :: (a :: (f' ++ '\n' :: rest'))))

lemma scanChars_append_blocked (f : List Char) : ∀ (b acc rest : List Char),
    (∀ u v, b = u ++ '\n' :: v → tryHeader (v ++ rest) = none) →
    scanChars f acc 0 (b ++ rest) = scanChars f (b.reverse ++ acc) 0 rest := by
  intro b
  induction b with
  | nil =>
    intro acc rest _
    simp
  | cons c b' ih =>
    intro acc rest h
    rw [List.cons_append]
    by_cases hc : c = '\n'
    · subst hc
      have hth : tryHeader (b' ++ rest) = none := h [] b' rfl
      simp only [scanChars, if_pos rfl, hth]
      rw [ih ('\n' :: acc) rest (fun u v huv => h ('\n' :: u) v (by rw [huv]; rfl))]
      simp
    · simp only [scanChars, if_neg hc]
      rw [ih (c :: acc) rest (fun u v huv => h (c :: u) v (by rw [huv]; rfl))]
      congr 1
      simp

/-- A line-start suffix from which no header can ever match, whatever text
follows: after its leading whitespace come at least three characters, not all
of them `#`. -/
def blockedB (v : List Char) : Bool :=
  match v.dropWhile isWS with
  | c1 :: c2 :: c3 :: _ => !(c1 = '#' && c2 = '#' && c3 = '#')
  | _ => false

lemma tryHeader_none_of_blockedB {v : List Char} (h : blockedB v = true)
    (cont : List Char) : tryHeader (v ++ cont) = none := by
  unfold blockedB at h
  rcases hd : v.dropWhile isWS with _ | ⟨c1, _ | ⟨c2, _ | ⟨c3, w⟩⟩⟩ <;>
    rw [hd] at h
  · cases h
  · cases h
  · cases h
  · have hdrop : (v ++ cont).dropWhile isWS = c1 :: c2 :: c3 :: (w ++ cont) := by
      rw [List.dropWhile_append, hd]
      simp
    unfold tryHeader
    rw [hdrop]
    split
    · rename_i s2 heq
      injection heq with h1 heq2
      injection heq2 with h2 heq3
      injection heq3 with h3 _
      subst h1
      subst h2
      subst h3
      simp at h
    · rfl

lemma scanChars_skip (f acc : List Char) : ∀ (p r : List Char),
    scanChars f acc p.length (p ++ r) = scanChars f acc 0 r := by
  intro p
  induction p with
  | nil => intro r; rfl
  | cons a p' ih => intro r; exact ih r

lemma blockedB_of_head (d1 d2 d3 : Char) (w : List Char)
    (h : ¬ (d1 = '#' ∧ d2 = '#' ∧ d3 = '#'))
    {v : List Char} (hv : v.dropWhile isWS = d1 :: d2 :: d3 :: w) :
    blockedB v = true := by
  unfold blockedB
  rw [hv]
  by_cases e1 : d1 = '#'
  · by_cases e2 : d2 = '#'
    · by_cases e3 : d3 = '#'
      · exact absurd ⟨e1, e2, e3⟩ h
      · simp [e1, e2, e3]
    · simp [e1, e2]
  · simp [e1]

lemma blockedB_body (x : List Char) (hh : containsSub x ("###".toList) = false) :
    blockedB ((x ++ ['\n']) ++ fence3) = true := by
  have hx : (x ++ ['\n']) ++ fence3 = x ++ ('\n' :: fence3) := by simp
  rw [hx]
  have hdw : (x ++ ('\n' :: fence3)).dropWhile isWS
      = if (x.dropWhile isWS).isEmpty then fence3
        else x.dropWhile isWS ++ ('\n' :: fence3) := by
    rw [List.dropWhile_append]
    by_cases he : (x.dropWhile isWS).isEmpty
    · rw [if_pos he, if_pos he]
      rw [List.dropWhile_cons, if_pos (by decide : isWS '\n' = true)]
      decide
    · rw [if_neg he, if_neg he]
  by_cases he : (x.dropWhile isWS).isEmpty
  · rw [if_pos he] at hdw
    unfold blockedB
    rw [hdw]
    decide
  · rw [if_neg he] at hdw
    rcases hd : x.dropWhile isWS with _ | ⟨d1, dx⟩
    · rw [hd] at he
      simp at he
    · rw [hd] at hdw
      rcases dx with _ | ⟨d2, dx2⟩
      · exact blockedB_of_head d1 '\n' '\x60' _ (by simp) hdw
      · rcases dx2 with _ | ⟨d3, dx3⟩
        · exact blockedB_of_head d1 d2 '\n' _ (by simp) hdw
        · by_cases h3 : d1 = '#' ∧ d2 = '#' ∧ d3 = '#'
          · exfalso
            obtain ⟨rfl, rfl, rfl⟩ := h3
            have hsfx : ('#' :: '#' :: '#' :: dx3) <:+ x :=
              hd ▸ List.dropWhile_suffix isWS
            have hcon : containsSub x ("###".toList) = true := by
              rw [containsSub_iff]
              refine List.IsInfix.trans ?_ hsfx.isInfix
              exact ⟨[], dx3, rfl⟩
            rw [hcon] at hh
            cases hh
          · exact blockedB_of_head d1 d2 d3 (dx3 ++ '\n' :: fence3) h3
              (by rw [hdw]; simp)

lemma append_split_nl {l₁ l₂ u v : List Char}
    (h : l₁ ++ l₂ = u ++ '\n' :: v) :
    (∃ w, l₁ = u ++ '\n' :: w ∧ v = w ++ l₂) ∨
    (∃ w, u = l₁ ++ w ∧ l₂ = w ++ '\n' :: v) := by
  rcases List.append_eq_append_iff.mp h with ⟨w, hu, hl⟩ | ⟨w, hl, hd⟩
  · exact Or.inr ⟨w, hu, hl⟩
  · rcases w with _ | ⟨x, w'⟩
    · rw [List.append_nil] at hl
      simp only [List.nil_append] at hd
      exact Or.inr ⟨[], by rw [hl, List.append_nil], by simpa using hd.symm⟩
    · injection hd with hx hv
      subst hx
      exact Or.inl ⟨w', hl, hv⟩

lemma no_nl_split {l : List Char} (hnl : ∀ a ∈ l, ¬ a = '\n')
    {u v : List Char} (h : l = u ++ '\n' :: v) : False := by
  have : '\n' ∈ l := by
    rw [h]
    exact List.mem_append_right _ (List.mem_cons_self _ _)
  exact hnl '\n' this rfl

lemma fbCore_blocked (lang c : List Char) (hlang : lang.all isTagChar = true)
    (hh : containsSub c ("###".toList) = false) :
    ∀ u v, fbCore lang c = u ++ '\n' :: v → blockedB v = true := by
  intro u v huv
  have hform : fbCore lang c
      = fence3 ++ (lang ++ ('\n' :: (c ++ ('\n' :: fence3)))) := by
    simp [fbCore, List.append_assoc]
  rw [hform] at huv
  rcases append_split_nl huv with ⟨w, hfence, _⟩ | ⟨w1, _, hX⟩
  · exact absurd hfence (fun hf => no_nl_split (by decide) hf)
  · rcases append_split_nl hX with ⟨w, hlangsplit, _⟩ | ⟨w2, _, hY⟩
    · exfalso
      refine no_nl_split ?_ hlangsplit
      intro a ha hannl
      have := List.all_eq_true.mp hlang a ha
      rw [hannl] at this
      cases this
    · rcases w2 with _ | ⟨x, w2'⟩
      · simp only [List.nil_append] at hY
        injection hY with _ hv
        rw [← hv]
        have : c ++ ('\n' :: fence3) = (c ++ ['\n']) ++ fence3 := by simp
        rw [this]
        exact blockedB_body c hh
      · injection hY with hx hZ
        rcases append_split_nl hZ with ⟨w3, hc3, hv3⟩ | ⟨w4, _, h5⟩
        · rw [hv3]
          have heq : w3 ++ '\n' :: fence3 = (w3 ++ ['\n']) ++ fence3 := by simp
          rw [heq]
          refine blockedB_body w3 (containsSub_of_middle hh ?_)
          exact ⟨w2' ++ ['\n'], [], by rw [hc3]; simp⟩
        · rcases w4 with _ | ⟨y, w4'⟩
          · simp only [List.nil_append] at h5
            injection h5 with _ hv
            rw [← hv]
            decide
          · injection h5 with hy hfence
            exact (no_nl_split (by decide) hfence).elim

lemma blockedB_fbCore (lang c : List Char) :
    blockedB (fbCore lang c) = true := by
  have hshape : fbCore lang c
      = '\x60' :: '\x60' :: '\x60' :: (lang ++ ('\n' :: (c ++ ('\n' :: fence3)))) := by
    simp [fbCore, fence3, List.append_assoc]
  refine blockedB_of_head '\x60' '\x60' '\x60'
    (lang ++ ('\n' :: (c ++ ('\n' :: fence3)))) (by simp) ?_
  rw [hshape, List.dropWhile_cons, if_neg (by decide : ¬ isWS '\x60' = true)]

lemma scan_start (lang c f : List Char) (hlang : lang.all isTagChar = true)
    (hh : containsSub c ("###".toList) = false) (R : List Char) :
    scanChars f [] 0 (fileBody lang c ++ R)
      = scanChars f ((fbCore lang c).reverse ++ ['\n']) 0 ('\n' :: R) := by
  have hform : fileBody lang c ++ R = ('\n' :: fbCore lang c) ++ ('\n' :: R) := by
    simp [fileBody, List.append_assoc]
  rw [hform]
  have hblocked : ∀ u v, '\n' :: fbCore lang c = u ++ '\n' :: v →
      tryHeader (v ++ ('\n' :: R)) = none := by
    intro u v huv
    rcases u with _ | ⟨x, u'⟩
    · injection huv with _ hv
      rw [← hv]
      exact tryHeader_none_of_blockedB (blockedB_fbCore lang c) _
    · injection huv with _ hcore
      exact tryHeader_none_of_blockedB
        (fbCore_blocked lang c hlang hh u' v hcore) _
  rw [scanChars_append_blocked f ('\n' :: fbCore lang c) [] ('\n' :: R) hblocked]
  simp

lemma renderFileSet_cons (lang : List Char) (p : List Char × List Char)
    (fs : List (List Char × List Char)) :
    renderFileSet lang (p :: fs) = renderFile lang p ++ renderFileSet lang fs := by
  simp [renderFileSet]

lemma scanChars_cons_nl_some (f acc f2 r2 rest : List Char)
    (h : tryHeader rest = some (f2, r2)) :
    scanChars f acc 0 ('\n' :: rest)
      = (f, ('\n' :: acc).reverse)
          :: scanChars f2 [] (rest.length - r2.length) rest := by
  simp only [scanChars, if_pos rfl, h, if_true]

lemma scanChars_render (lang : List Char) (hlang : lang.all isTagChar = true) :
    ∀ (files : List (List Char × List Char)) (f c : List Char),
      containsSub c ("###".toList) = false →
      (∀ p ∈ files, p.1 ≠ [] ∧ p.1.all isFnChar = true ∧
        containsSub p.2 ("###".toList) = false) →
      scanChars f [] 0 (fileBody lang c ++ renderFileSet lang files)
        = (f, fileBody lang c) :: files.map (fun p => (p.1, fileBody lang p.2)) := by
  intro files
  induction files with
  | nil =>
    intro f c hh _
    rw [scan_start lang c f hlang hh]
    have hRnil : renderFileSet lang [] = [] := rfl
    rw [hRnil]
    have hth : tryHeader ([] : List Char) = none := rfl
    simp only [scanChars, if_pos rfl, hth]
    simp [fileBody, List.append_assoc]
  | cons p fs ih =>
    intro f c hh hf
    rw [scan_start lang c f hlang hh, renderFileSet_cons]
    have hp := hf p (List.mem_cons_self _ _)
    have hRform : renderFile lang p ++ renderFileSet lang fs
        = "### ".toList ++ p.1 ++ '\n' ::
            ((fbCore lang p.2 ++ ['\n']) ++ renderFileSet lang fs) := by
      simp [renderFile, fileBody, List.append_assoc]
    have hth : tryHeader (renderFile lang p ++ renderFileSet lang fs)
        = some (p.1, '\n' :: ((fbCore lang p.2 ++ ['\n']) ++ renderFileSet lang fs)) := by
      rw [hRform]
      exact tryHeader_render p.1 _ hp.1 hp.2.1
    rw [scanChars_cons_nl_some _ _ _ _ _ hth]
    have hskip : scanChars p.1 []
        ((renderFile lang p ++ renderFileSet lang fs).length
          - ('\n' :: ((fbCore lang p.2 ++ ['\n']) ++ renderFileSet lang fs)).length)
        (renderFile lang p ++ renderFileSet lang fs)
        = scanChars p.1 [] 0
          ('\n' :: ((fbCore lang p.2 ++ ['\n']) ++ renderFileSet lang fs)) := by
      rw [hRform]
      have hl : (("### ".toList ++ p.1) ++
          ('\n' :: ((fbCore lang p.2 ++ ['\n']) ++ renderFileSet lang fs))).length
          - ('\n' :: ((fbCore lang p.2 ++ ['\n']) ++ renderFileSet lang fs)).length
          = ("### ".toList ++ p.1).length := by
        simp only [List.length_append, List.length_cons]
        omega
      rw [hl]
      exact scanChars_skip p.1 [] ("### ".toList ++ p.1)
        ('\n' :: ((fbCore lang p.2 ++ ['\n']) ++ renderFileSet lang fs))
    rw [hskip]
    have hbodyform : '\n' :: ((fbCore lang p.2 ++ ['\n']) ++ renderFileSet lang fs)
        = fileBody lang p.2 ++ renderFileSet lang fs := by
      simp [fileBody, List.append_assoc]
    rw [hbodyform, ih p.1 p.2 hp.2.2
      (fun q hq => hf q (List.mem_cons_of_mem _ hq))]
    have hfirst : ('\n' :: ((fbCore lang c).reverse ++ ['\n'])).reverse
        = fileBody lang c := by
      simp [fileBody]
    rw [hfirst]
    simp

lemma headerSections_render (lang : List Char) (hlang : lang.all isTagChar = true)
    (files : List (List Char × List Char)) (hne : files ≠ [])
    (hf : ∀ p ∈ files, p.1 ≠ [] ∧ p.1.all isFnChar = true ∧
      containsSub p.2 ("###".toList) = false) :
    headerSections (renderFileSet lang files)
      = files.map (fun p => (p.1, fileBody lang p.2)) := by
  rcases files with _ | ⟨p, fs⟩
  · exact absurd rfl hne
  have hp := hf p (List.mem_cons_self _ _)
  have hRform : renderFileSet lang (p :: fs)
      = "### ".toList ++ p.1 ++ '\n' ::
          ((fbCore lang p.2 ++ ['\n']) ++ renderFileSet lang fs) := by
    rw [renderFileSet_cons]
    simp [renderFile, fileBody, List.append_assoc]
  have hth : tryHeader (renderFileSet lang (p :: fs))
      = some (p.1, '\n' :: ((fbCore lang p.2 ++ ['\n']) ++ renderFileSet lang fs)) := by
    rw [hRform]
    exact tryHeader_render p.1 _ hp.1 hp.2.1
  unfold headerSections
  rw [hth]
  have hbodyform : '\n' :: ((fbCore lang p.2 ++ ['\n']) ++ renderFileSet lang fs)
      = fileBody lang p.2 ++ renderFileSet lang fs := by
    simp [fileBody, List.append_assoc]
  rw [hbodyform]
  show scanChars p.1 [] 0 (fileBody lang p.2 ++ renderFileSet lang fs)
    = List.map (fun p => (p.1, fileBody lang p.2)) (p :: fs)
  rw [scanChars_render lang hlang fs p.1 p.2 hp.2.2
    (fun q hq => hf q (List.mem_cons_of_mem _ hq))]
  simp

/-!
### The parse fold over rendered sections
-/

lemma foldl_parseStep_nodup (lang : List Char) (hlang : lang.all isTagChar = true) :
    ∀ (files acc : List (List Char × List Char)),
      (∀ p ∈ files, p.1.all isFnChar = true ∧
        containsSub p.2 fence3 = false ∧ pyStrip p.2 ≠ []) →
      (files.map Prod.fst).Nodup →
      (∀ p ∈ files, acc.any (fun q => q.1 = p.1) = false) →
      (files.map (fun p => (p.1, fileBody lang p.2))).foldl parseStep acc
        = acc ++ files.map (fun p => (p.1, pyStrip p.2)) := by
  intro files
  induction files with
  | nil =>
    intro acc _ _ _
    simp
  | cons p fs ih =>
    intro acc hf hnd hfresh
    have hp := hf p (List.mem_cons_self _ _)
    have hstep : parseStep acc (p.1, fileBody lang p.2)
        = acc ++ [(p.1, pyStrip p.2)] := by
      simp only [parseStep]
      rw [strip_markdown_fileBody lang p.2 hlang hp.2.1 hp.2.2]
      have hne : ¬ (pyStrip p.2).isEmpty = true := by
        rcases hd : pyStrip p.2 with _ | _
        · exact absurd hd hp.2.2
        · simp
      rw [if_pos hne, pyStrip_of_fnChar hp.1]
      unfold dictInsert
      rw [if_neg ?_]
      rw [hfresh p (List.mem_cons_self _ _)]
      exact Bool.false_ne_true
    rw [List.map_cons] at hnd
    have hnd' := List.nodup_cons.mp hnd
    have hfresh' : ∀ q ∈ fs,
        (acc ++ [(p.1, pyStrip p.2)]).any (fun r => r.1 = q.1) = false := by
      intro q hq
      rw [List.any_append, hfresh q (List.mem_cons_of_mem _ hq)]
      have hqne : ¬ p.1 = q.1 := by
        intro he
        exact hnd'.1 (he ▸ List.mem_map_of_mem Prod.fst hq)
      simp [hqne]
    calc ((p :: fs).map (fun p => (p.1, fileBody lang p.2))).foldl parseStep acc
        = (fs.map (fun p => (p.1, fileBody lang p.2))).foldl parseStep
            (acc ++ [(p.1, pyStrip p.2)]) := by
          rw [List.map_cons, List.foldl_cons, hstep]
      _ = (acc ++ [(p.1, pyStrip p.2)]) ++ fs.map (fun p => (p.1, pyStrip p.2)) :=
          ih (acc ++ [(p.1, pyStrip p.2)])
            (fun q hq => hf q (List.mem_cons_of_mem _ hq)) hnd'.2 hfresh'
      _ = acc ++ (p :: fs).map (fun p => (p.1, pyStrip p.2)) := by
          rw [List.map_cons, List.append_assoc]
          rfl

set_option maxRecDepth 8000 in
/-- C8 is FALSE as stated: the round trip fails for arbitrary contents.
Rendering the single file `a.py` whose content is the text
`### b.py\nx` with the canonical header+fence template and parsing the
result yields one file named `b.py` with content `x`: the header marker
inside the content is re-parsed as a section boundary, the fenced first
section cleans to empty and is dropped, so neither the filename nor the
content of the original file survives. -/
theorem C8_counterexample :
    parse_code_response (renderFileSet ("python".toList)
        [("a.py".toList, "### b.py\nx".toList)])
      = [("b.py".toList, "x".toList)] ∧
    parse_code_response (renderFileSet ("python".toList)
        [("a.py".toList, "### b.py\nx".toList)])
      ≠ [("a.py".toList, pyStrip ("### b.py\nx".toList))] := by
  constructor
  · decide
  · decide

/-- C8 amended: the round trip holds for a non-empty file set with distinct,
non-empty filenames over the header pattern character class, PROVIDED each
content contains no triple-backtick fence, contains no `###` substring and is
not whitespace-only: then parsing the canonical rendering recovers exactly the
original filename/content pairs with each content whitespace-trimmed.  The
provisos are necessary: contents containing `###` at a line start or a fence
break the round trip, and whitespace-only contents are dropped. -/
theorem C8_amended (lang : List Char) (files : List (List Char × List Char))
    (hlang : lang.all isTagChar = true) (hne : files ≠ [])
    (hf : ∀ p ∈ files, p.1 ≠ [] ∧ p.1.all isFnChar = true ∧
      containsSub p.2 ("###".toList) = false ∧
      containsSub p.2 fence3 = false ∧ pyStrip p.2 ≠ [])
    (hnd : (files.map Prod.fst).Nodup) :
    parse_code_response (renderFileSet lang files)
      = files.map (fun p => (p.1, pyStrip p.2)) := by
  simp only [parse_code_response]
  rw [headerSections_render lang hlang files hne
    (fun p hp => ⟨(hf p hp).1, (hf p hp).2.1, (hf p hp).2.2.1⟩)]
  have hms : ¬ (files.map (fun p => (p.1, fileBody lang p.2))).isEmpty = true := by
    rcases files with _ | _
    · exact absurd rfl hne
    · simp
  rw [if_neg hms]
  exact foldl_parseStep_nodup lang hlang files []
    (fun p hp => ⟨(hf p hp).2.1, (hf p hp).2.2.2.1, (hf p hp).2.2.2.2⟩) hnd
    (fun p _ => rfl)

set_option maxRecDepth 8000 in
/-- Witness for C8_amended: a concrete two-file set satisfying the provisos
round-trips exactly, with contents trimmed. -/
theorem C8_witness :
    parse_code_response (renderFileSet ("python".toList)
        [("a.py".toList, " x = 1 ".toList), ("b.py".toList, "y = 2".toList)])
      = [("a.py".toList, "x = 1".toList), ("b.py".toList, "y = 2".toList)] := by
  have h := C8_amended ("python".toList)
    [("a.py".toList, " x = 1 ".toList), ("b.py".toList, "y = 2".toList)]
    (by decide) (by decide)
    (by decide) (by decide)
  exact h.trans (by decide)

end CodeGen
